import Mathlib

/-
  Verification development for the event-loop simulator
  (src/event-loop-simulator.js).

  The scheduler owns eight FIFO queues of callbacks and a `tick`
  operation that drains them in a fixed phase order:

  * `runNextTick` / `runMicrotasks` : while-loops that shift and invoke
    the head of the `nextTick` / `microtasks` queue until it is empty;
  * `runPhase(phase, queue)` : first `runNextTick()`, then a while-loop
    that shifts and invokes the head of the phase queue, running
    `runMicrotasks()` after each invocation;
  * `tick()` : six `runPhase` calls in the order timers,
    pendingCallbacks, idlePrepare, poll, check, closeCallbacks.

  Shallow embedding notes.
  A work item ("callback") is modelled by the `Task` type: an invocable
  task carries an identifier, the list of enqueue operations it performs
  when invoked, and whether it throws at the end of its body; a value
  that is not invocable (the JS code pushes any value unchecked, and
  `task()` then raises a TypeError) is modelled by `Task.notCallable`.
  Invocation order is made observable through a ghost trace of events
  stored in the state: `Ev.invoke id` records that a callable task began
  executing, and `Ev.deq phase ntE mtE` records that a phase-queue item
  was shifted for invocation while the emptiness of the nextTick /
  microtasks queues was `ntE` / `mtE`.  The ghost trace never influences
  control flow.  The `console.log` narration of the source is a side
  channel and is not modelled.
  The while-loops of the source can diverge (a callback re-enqueuing
  itself forever), so every drain takes a fuel argument; `R.out` marks
  fuel exhaustion, `R.exn s` models an uncaught exception propagating
  with the scheduler left in state `s` (nothing in the source catches).
-/

namespace ELoop

/-- The eight queue names of the scheduler (the QUEUE_NAMES constant /
the keys of `this.queues`). -/
inductive QId where
  | nextTick
  | microtasks
  | timers
  | pendingCallbacks
  | idlePrepare
  | poll
  | check
  | closeCallbacks
deriving DecidableEq, Repr

/-- A work item.  `mk id effs thr` is a callable that, when invoked,
performs the enqueues `effs` in order and then returns normally
(`thr = false`) or throws (`thr = true`).  `notCallable id` is a value
that is not invocable: calling it raises immediately, performing no
enqueue and never counting as an executed work item. -/
inductive Task where
  | mk (id : Nat) (effs : List (QId × Task)) (thr : Bool)
  | notCallable (id : Nat)

/-- Identifier of a task. -/
def Task.tid : Task → Nat
  | .mk id _ _ => id
  | .notCallable id => id

/-- Ghost trace events: `invoke id` when a callable task starts
executing; `deq phase ntE mtE` when a phase-queue item is shifted for
invocation, with `ntE` / `mtE` recording whether the nextTick /
microtasks queues are empty at that moment. -/
inductive Ev where
  | invoke (id : Nat)
  | deq (phase : QId) (ntE : Bool) (mtE : Bool)
deriving DecidableEq, Repr

/-- Scheduler state: the eight queues built in the constructor, the
(never consulted) `running` flag, and the ghost event trace. -/
structure St where
  nextTick : List Task
  microtasks : List Task
  timers : List Task
  pendingCallbacks : List Task
  idlePrepare : List Task
  poll : List Task
  check : List Task
  closeCallbacks : List Task
  running : Bool
  trace : List Ev

/-- The state produced by the constructor: all queues empty,
`running = false` (the ghost trace starts empty). -/
def initSt : St := ⟨[], [], [], [], [], [], [], [], false, []⟩

/-- Read the queue named `i`. -/
def getQ (s : St) (i : QId) : List Task :=
  match i with
  | .nextTick => s.nextTick
  | .microtasks => s.microtasks
  | .timers => s.timers
  | .pendingCallbacks => s.pendingCallbacks
  | .idlePrepare => s.idlePrepare
  | .poll => s.poll
  | .check => s.check
  | .closeCallbacks => s.closeCallbacks

/-- Replace the queue named `i`. -/
def setQ (s : St) (i : QId) (q : List Task) : St :=
  match i with
  | .nextTick => { s with nextTick := q }
  | .microtasks => { s with microtasks := q }
  | .timers => { s with timers := q }
  | .pendingCallbacks => { s with pendingCallbacks := q }
  | .idlePrepare => { s with idlePrepare := q }
  | .poll => { s with poll := q }
  | .check => { s with check := q }
  | .closeCallbacks => { s with closeCallbacks := q }

/-- `this.queues[i].push(t)` : append `t` at the end of queue `i`. -/
def pushQ (i : QId) (t : Task) (s : St) : St :=
  setQ s i (getQ s i ++ [t])

/-- Append a ghost event to the trace. -/
def addEv (e : Ev) (s : St) : St :=
  { s with trace := s.trace ++ [e] }

/-- Perform the enqueues of a callback body, in order. -/
def applyEffs (effs : List (QId × Task)) (s : St) : St :=
  effs.foldl (fun acc p => pushQ p.1 p.2 acc) s

/-- Invoke a (possibly non-callable) value: `task()`.  Returns the new
state and whether the call threw.  A callable records its `invoke`
event and performs its enqueues (throwing afterwards when flagged); a
non-callable value raises at once, leaving the state untouched. -/
def runTask (t : Task) (s : St) : St × Bool :=
  match t with
  | .mk id effs thr => (applyEffs effs (addEv (.invoke id) s), thr)
  | .notCallable _ => (s, true)

/-- Outcome of a fueled run: normal completion, an exception
propagating out with the scheduler in the carried state, or fuel
exhaustion (the source loop would still be running). -/
inductive R where
  | ok (s : St)
  | exn (s : St)
  | out

/-- The state carried by a finished run (`ok` or `exn`). -/
def R.st? : R → Option St
  | .ok s => some s
  | .exn s => some s
  | .out => none

/-- Sequencing of two runs: JS statements run one after the other, an
uncaught exception (or fuel exhaustion) short-circuits the rest. -/
def bindOk (r : R) (f : St → R) : R :=
  match r with
  | .ok s => f s
  | r => r

/-- The `while (queue.length > 0) { const task = queue.shift(); task(); }`
loop of `runNextTick` (for `i = .nextTick`) and `runMicrotasks`
(for `i = .microtasks`), with fuel bounding the number of iterations. -/
def drain (i : QId) : Nat → St → R
  | 0, s =>
    match getQ s i with
    | [] => .ok s
    | _ :: _ => .out
  | fuel + 1, s =>
    match getQ s i with
    | [] => .ok s
    | t :: rest =>
      let p := runTask t (setQ s i rest)
      if p.2 then .exn p.1 else drain i fuel p.1

/-- `runNextTick()` : fully drain the nextTick queue. -/
def runNextTick (fuel : Nat) (s : St) : R :=
  drain .nextTick fuel s

/-- `runMicrotasks()` : fully drain the microtasks queue. -/
def runMicrotasks (fuel : Nat) (s : St) : R :=
  drain .microtasks fuel s

/-- `runNextTickAndMicrotasks()` : the (unused by `runPhase`) helper
that drains nextTick and then microtasks. -/
def runNextTickAndMicrotasks (fuel : Nat) (s : St) : R :=
  match runNextTick fuel s with
  | .ok s1 => runMicrotasks fuel s1
  | r => r

/-- The `while (queue.length > 0)` loop of `runPhase`: shift the head
of phase queue `i`, invoke it, then `runMicrotasks()`, re-checking the
queue length each iteration.  A ghost `deq` event records each shift
together with the emptiness of both priority queues at that moment. -/
def runPhaseLoop (i : QId) : Nat → St → R
  | 0, s =>
    match getQ s i with
    | [] => .ok s
    | _ :: _ => .out
  | fuel + 1, s =>
    match getQ s i with
    | [] => .ok s
    | t :: rest =>
      let s0 := addEv (.deq i (getQ s .nextTick).isEmpty (getQ s .microtasks).isEmpty) s
      let p := runTask t (setQ s0 i rest)
      if p.2 then .exn p.1
      else
        match runMicrotasks fuel p.1 with
        | .ok s2 => runPhaseLoop i fuel s2
        | r => r

/-- `runPhase(phase, queue)` : `runNextTick()` first, then the phase
loop. -/
def runPhase (i : QId) (fuel : Nat) (s : St) : R :=
  match runNextTick fuel s with
  | .ok s1 => runPhaseLoop i fuel s1
  | r => r

/-- `tick()` : the six `runPhase` calls in their fixed order (an
uncaught exception aborts the remaining phases). -/
def tick (fuel : Nat) (s : St) : R :=
  bindOk (runPhase .timers fuel s) fun s1 =>
  bindOk (runPhase .pendingCallbacks fuel s1) fun s2 =>
  bindOk (runPhase .idlePrepare fuel s2) fun s3 =>
  bindOk (runPhase .poll fuel s3) fun s4 =>
  bindOk (runPhase .check fuel s4) fun s5 =>
  runPhase .closeCallbacks fuel s5

/-- `queueNextTick(callback)` : `this.queues.nextTick.push(callback)`
(no validation of any kind). -/
def queueNextTick (t : Task) (s : St) : St := pushQ .nextTick t s

/-- `queueMicrotask(callback)`. -/
def queueMicrotask (t : Task) (s : St) : St := pushQ .microtasks t s

/-- `queueTimer(callback)`. -/
def queueTimer (t : Task) (s : St) : St := pushQ .timers t s

/-- `queuePendingCallback(callback)`. -/
def queuePendingCallback (t : Task) (s : St) : St := pushQ .pendingCallbacks t s

/-- `queueIdlePrepare(callback)`. -/
def queueIdlePrepare (t : Task) (s : St) : St := pushQ .idlePrepare t s

/-- `queuePoll(callback)`. -/
def queuePoll (t : Task) (s : St) : St := pushQ .poll t s

/-- `queueCheck(callback)`. -/
def queueCheck (t : Task) (s : St) : St := pushQ .check t s

/-- `queueCloseCallback(callback)`. -/
def queueCloseCallback (t : Task) (s : St) : St := pushQ .closeCallbacks t s

/-- Trace of a finished or aborted run (empty when fuel ran out). -/
def traceOf (r : R) : List Ev :=
  match r with
  | .ok s => s.trace
  | .exn s => s.trace
  | .out => []

/-- `invokedBefore tr a b` : some `invoke a` event occurs strictly
before some `invoke b` event in `tr`. -/
def invokedBefore : List Ev → Nat → Nat → Bool
  | [], _, _ => false
  | e :: rest, a, b =>
    if e = Ev.invoke a then rest.contains (Ev.invoke b) || invokedBefore rest a b
    else invokedBefore rest a b

/-! ### Concrete scenario states used by counterexamples and witnesses -/

/-- One microtask (id 2) queued before the tick, one timer (id 1). -/
def sC1 : St := { initSt with microtasks := [.mk 2 [] false], timers := [.mk 1 [] false] }

/-- One nextTick task (id 1) and one timer (id 2) queued before a phase run. -/
def wC1 : St := { initSt with nextTick := [.mk 1 [] false], timers := [.mk 2 [] false] }

/-- Result of `runPhase timers` on `wC1`. -/
def wC1r : St := { initSt with trace := [.invoke 1, .deq .timers true true, .invoke 2] }

/-- Timers A (id 1, enqueues id 3 into nextTick when invoked) and B (id 2). -/
def sC2 : St :=
  { initSt with timers := [.mk 1 [(.nextTick, .mk 3 [] false)] false, .mk 2 [] false] }

/-- Result of one tick on `sC2`. -/
def sC2r : St :=
  { initSt with trace := [.deq .timers true true, .invoke 1, .deq .timers false true,
    .invoke 2, .invoke 3] }

/-- Timers id 4 (enqueues id 6 into nextTick when invoked) and id 5. -/
def sC3 : St :=
  { initSt with timers := [.mk 4 [(.nextTick, .mk 6 [] false)] false, .mk 5 [] false] }

/-- The spec's example: timers A (id 1, enqueues C (id 3) into the
microtask queue when invoked) and B (id 2). -/
def sABC : St :=
  { initSt with timers := [.mk 1 [(.microtasks, .mk 3 [] false)] false, .mk 2 [] false] }

/-- One timer (id 1) that enqueues a microtask (id 2) when invoked. -/
def wC3 : St := { initSt with timers := [.mk 1 [(.microtasks, .mk 2 [] false)] false] }

/-- Result of the phase loop on `wC3`. -/
def wC3r : St := { initSt with trace := [.deq .timers true true, .invoke 1, .invoke 2] }

/-- A non-invocable value queued into nextTick. -/
def w4 : St := { initSt with nextTick := [.notCallable 7] }

/-- One timer (id 1) and one check task (id 2). -/
def wC5 : St := { initSt with timers := [.mk 1 [] false], check := [.mk 2 [] false] }

/-- Result of one tick on `wC5`. -/
def wC5r : St :=
  { initSt with trace := [.deq .timers true true, .invoke 1, .deq .check true true, .invoke 2] }

/-- A nextTick task (id 1) that re-enqueues into nextTick (id 2). -/
def w6a : St := { initSt with nextTick := [.mk 1 [(.nextTick, .mk 2 [] false)] false] }

/-- Result of draining nextTick on `w6a`. -/
def w6ar : St := { initSt with trace := [.invoke 1, .invoke 2] }

/-- A microtask (id 3) that re-enqueues into microtasks (id 4). -/
def w6b : St := { initSt with microtasks := [.mk 3 [(.microtasks, .mk 4 [] false)] false] }

/-- Result of draining microtasks on `w6b`. -/
def w6br : St := { initSt with trace := [.invoke 3, .invoke 4] }

/-- A microtask (id 5) that enqueues id 6 into nextTick. -/
def w6c : St := { initSt with microtasks := [.mk 5 [(.nextTick, .mk 6 [] false)] false] }

/-- Result of draining microtasks on `w6c`: id 6 still waiting. -/
def w6cr : St := { initSt with nextTick := [.mk 6 [] false], trace := [.invoke 5] }

/-- Result of then draining nextTick on `w6cr`. -/
def w6cs : St := { initSt with trace := [.invoke 5, .invoke 6] }

/-- A throwing timer (id 1) followed by timer id 2, and a check task (id 3). -/
def sC7 : St :=
  { initSt with timers := [.mk 1 [] true, .mk 2 [] false], check := [.mk 3 [] false] }

/-- State in which the exception of `sC7`'s first timer leaves the
scheduler: timer id 2 and check id 3 still queued, only id 1 invoked. -/
def sC7e : St :=
  { initSt with
      timers := [.mk 2 [] false]
      check := [.mk 3 [] false]
      trace := [.deq .timers true true, .invoke 1] }

/-- A throwing check task (id 1) followed by check id 2, and a
close-callback task (id 3): a throw surfacing from the fifth phase. -/
def wC7 : St :=
  { initSt with check := [.mk 1 [] true, .mk 2 [] false], closeCallbacks := [.mk 3 [] false] }

/-- State in which the exception of `wC7`'s first check task leaves the
scheduler: check id 2 and close-callback id 3 still queued. -/
def wC7e : St :=
  { initSt with
      check := [.mk 2 [] false]
      closeCallbacks := [.mk 3 [] false]
      trace := [.deq .check true true, .invoke 1] }

/-- A throwing nextTick task (id 8) followed by nextTick id 9. -/
def w7d : St := { initSt with nextTick := [.mk 8 [] true, .mk 9 [] false] }

/-- One nextTick task (id 1). -/
def w9 : St := { initSt with nextTick := [.mk 1 [] false] }

/-- Result of draining nextTick on `w9`. -/
def w9r : St := { initSt with trace := [.invoke 1] }

/-! ### Basic state lemmas -/

theorem getQ_setQ_self (s : St) (i : QId) (q : List Task) :
    getQ (setQ s i q) i = q := by
  cases i <;> rfl

theorem getQ_setQ_ne (s : St) (i j : QId) (q : List Task) (h : j ≠ i) :
    getQ (setQ s i q) j = getQ s j := by
  cases i <;> cases j <;> first | rfl | exact (h rfl).elim

theorem trace_setQ (s : St) (i : QId) (q : List Task) :
    (setQ s i q).trace = s.trace := by
  cases i <;> rfl

theorem running_setQ (s : St) (i : QId) (q : List Task) :
    (setQ s i q).running = s.running := by
  cases i <;> rfl

theorem getQ_addEv (e : Ev) (s : St) (i : QId) :
    getQ (addEv e s) i = getQ s i := by
  cases i <;> rfl

theorem trace_addEv (e : Ev) (s : St) :
    (addEv e s).trace = s.trace ++ [e] := rfl

theorem running_addEv (e : Ev) (s : St) :
    (addEv e s).running = s.running := rfl

theorem getQ_pushQ_self (i : QId) (t : Task) (s : St) :
    getQ (pushQ i t s) i = getQ s i ++ [t] := by
  simp [pushQ, getQ_setQ_self]

theorem getQ_pushQ_pref (i : QId) (t : Task) (s : St) (j : QId) :
    getQ s j <+: getQ (pushQ i t s) j := by
  by_cases h : j = i
  · subst h
    rw [getQ_pushQ_self]
    exact List.prefix_append _ _
  · rw [pushQ, getQ_setQ_ne s i j _ h]

theorem trace_pushQ (i : QId) (t : Task) (s : St) :
    (pushQ i t s).trace = s.trace := trace_setQ _ _ _

theorem running_pushQ (i : QId) (t : Task) (s : St) :
    (pushQ i t s).running = s.running := running_setQ _ _ _

theorem applyEffs_trace (effs : List (QId × Task)) (s : St) :
    (applyEffs effs s).trace = s.trace := by
  induction effs generalizing s with
  | nil => rfl
  | cons p rest ih =>
      show (applyEffs rest (pushQ p.1 p.2 s)).trace = s.trace
      rw [ih, trace_pushQ]

theorem applyEffs_running (effs : List (QId × Task)) (s : St) :
    (applyEffs effs s).running = s.running := by
  induction effs generalizing s with
  | nil => rfl
  | cons p rest ih =>
      show (applyEffs rest (pushQ p.1 p.2 s)).running = s.running
      rw [ih, running_pushQ]

theorem applyEffs_pref (effs : List (QId × Task)) (s : St) (j : QId) :
    getQ s j <+: getQ (applyEffs effs s) j := by
  induction effs generalizing s with
  | nil => exact List.prefix_refl _
  | cons p rest ih =>
      rw [applyEffs] at *
      simp only [List.foldl_cons]
      exact (getQ_pushQ_pref p.1 p.2 s j).trans (ih _)

/-! ### Lemmas about invoking a single task -/

theorem runTask_trace (t : Task) (s : St) :
    ∃ ext, (runTask t s).1.trace = s.trace ++ ext ∧
      (∀ e ∈ ext, ∃ n, e = Ev.invoke n) ∧
      (∀ n, Ev.invoke n ∈ ext → n = t.tid) := by
  cases t with
  | mk id effs thr =>
      refine ⟨[Ev.invoke id], ?_, ?_, ?_⟩
      · simp [runTask, applyEffs_trace, trace_addEv]
      · intro e he; simp at he; exact ⟨id, he⟩
      · intro n hn; simp at hn; simp [Task.tid]; omega
  | notCallable id => exact ⟨[], by simp [runTask], by simp, by simp⟩

theorem runTask_pref (t : Task) (s : St) (j : QId) :
    getQ s j <+: getQ (runTask t s).1 j := by
  cases t with
  | mk id effs thr =>
      have h1 : getQ s j = getQ (addEv (Ev.invoke id) s) j := (getQ_addEv _ _ _).symm
      rw [runTask]
      rw [h1]
      exact applyEffs_pref _ _ _
  | notCallable id => exact List.prefix_refl _

theorem runTask_running (t : Task) (s : St) :
    (runTask t s).1.running = s.running := by
  cases t with
  | mk id effs thr => simp [runTask, applyEffs_running, running_addEv]
  | notCallable id => rfl

/-! ### Lemmas about `drain` (the loops of runNextTick / runMicrotasks) -/

theorem drain_of_empty (i : QId) (fuel : Nat) (s : St) (h : getQ s i = []) :
    drain i fuel s = R.ok s := by
  cases fuel <;> simp [drain, h]

/-- Structural facts about a finished or aborted `drain`: the trace
grows by invoke events only, every other queue is only appended to,
and the running flag is untouched. -/
theorem drain_some_spec (i : QId) :
    ∀ (fuel : Nat) (s s' : St), (drain i fuel s).st? = some s' →
      (∃ ext, s'.trace = s.trace ++ ext ∧ ∀ e ∈ ext, ∃ n, e = Ev.invoke n) ∧
      (∀ j, j ≠ i → getQ s j <+: getQ s' j) ∧
      s'.running = s.running := by
  intro fuel
  induction fuel with
  | zero =>
      intro s s' h
      cases hq : getQ s i with
      | nil =>
          simp [drain, hq, R.st?] at h
          subst h
          exact ⟨⟨[], by simp, by simp⟩, fun j _ => List.prefix_refl _, rfl⟩
      | cons t rest => simp [drain, hq, R.st?] at h
  | succ fuel ih =>
      intro s s' h
      cases hq : getQ s i with
      | nil =>
          simp [drain, hq, R.st?] at h
          subst h
          exact ⟨⟨[], by simp, by simp⟩, fun j _ => List.prefix_refl _, rfl⟩
      | cons t rest =>
          cases t with
          | notCallable id =>
              simp [drain, hq, runTask, R.st?] at h
              subst h
              refine ⟨⟨[], by simp [trace_setQ], by simp⟩, ?_, running_setQ _ _ _⟩
              intro j hj
              rw [getQ_setQ_ne s i j rest hj]
          | mk id effs thr =>
              have htr1 : (applyEffs effs (addEv (Ev.invoke id) (setQ s i rest))).trace
                  = s.trace ++ [Ev.invoke id] := by
                rw [applyEffs_trace, trace_addEv, trace_setQ]
              have hpre1 : ∀ j, j ≠ i →
                  getQ s j <+: getQ (applyEffs effs (addEv (Ev.invoke id) (setQ s i rest))) j := by
                intro j hj
                have h1 : getQ (addEv (Ev.invoke id) (setQ s i rest)) j = getQ s j := by
                  rw [getQ_addEv, getQ_setQ_ne s i j rest hj]
                calc getQ s j = getQ (addEv (Ev.invoke id) (setQ s i rest)) j := h1.symm
                  _ <+: _ := applyEffs_pref _ _ _
              have hrun1 : (applyEffs effs (addEv (Ev.invoke id) (setQ s i rest))).running
                  = s.running := by
                rw [applyEffs_running, running_addEv, running_setQ]
              cases thr with
              | true =>
                  simp only [drain, hq, runTask, R.st?, if_true, Option.some.injEq] at h
                  subst h
                  exact ⟨⟨[Ev.invoke id], htr1, by simp⟩, hpre1, hrun1⟩
              | false =>
                  simp only [drain, hq, runTask, R.st?, if_false, Bool.false_eq_true,
                    ite_false] at h
                  obtain ⟨⟨ext2, htr2, hinv2⟩, hpre2, hrun2⟩ := ih _ s' h
                  refine ⟨⟨Ev.invoke id :: ext2, ?_, ?_⟩, ?_, ?_⟩
                  · rw [htr2, htr1]; simp
                  · intro e he
                    rcases List.mem_cons.mp he with h1 | h1
                    · exact ⟨id, h1⟩
                    · exact hinv2 e h1
                  · intro j hj
                    exact (hpre1 j hj).trans (hpre2 j hj)
                  · rw [hrun2, hrun1]

/-- A `drain` that terminates normally has emptied its queue, has
invoked every task that was in the queue at its start, and has appended
only invoke events to the trace. -/
theorem drain_ok_spec (i : QId) :
    ∀ (fuel : Nat) (s s' : St), drain i fuel s = R.ok s' →
      getQ s' i = [] ∧
      ∃ ext, s'.trace = s.trace ++ ext ∧
        (∀ e ∈ ext, ∃ n, e = Ev.invoke n) ∧
        (∀ t ∈ getQ s i, Ev.invoke t.tid ∈ ext) ∧
        (∀ j, j ≠ i → getQ s j <+: getQ s' j) ∧
        s'.running = s.running := by
  intro fuel
  induction fuel with
  | zero =>
      intro s s' h
      cases hq : getQ s i with
      | nil =>
          simp [drain, hq] at h
          subst h
          exact ⟨hq, [], by simp, by simp, by simp [hq], fun j _ => List.prefix_refl _, rfl⟩
      | cons t rest => simp [drain, hq] at h
  | succ fuel ih =>
      intro s s' h
      cases hq : getQ s i with
      | nil =>
          simp [drain, hq] at h
          subst h
          exact ⟨hq, [], by simp, by simp, by simp [hq], fun j _ => List.prefix_refl _, rfl⟩
      | cons t rest =>
          cases t with
          | notCallable id => simp [drain, hq, runTask] at h
          | mk id effs thr =>
              cases thr with
              | true => simp [drain, hq, runTask] at h
              | false =>
                  simp only [drain, hq, runTask, if_false, Bool.false_eq_true, ite_false] at h
                  have htr1 : (applyEffs effs (addEv (Ev.invoke id) (setQ s i rest))).trace
                      = s.trace ++ [Ev.invoke id] := by
                    rw [applyEffs_trace, trace_addEv, trace_setQ]
                  have hqpre1 : rest <+: getQ (applyEffs effs (addEv (Ev.invoke id) (setQ s i rest))) i := by
                    have h1 : getQ (addEv (Ev.invoke id) (setQ s i rest)) i = rest := by
                      rw [getQ_addEv, getQ_setQ_self]
                    calc rest = getQ (addEv (Ev.invoke id) (setQ s i rest)) i := h1.symm
                      _ <+: _ := applyEffs_pref _ _ _
                  have hpre1 : ∀ j, j ≠ i →
                      getQ s j <+: getQ (applyEffs effs (addEv (Ev.invoke id) (setQ s i rest))) j := by
                    intro j hj
                    have h1 : getQ (addEv (Ev.invoke id) (setQ s i rest)) j = getQ s j := by
                      rw [getQ_addEv, getQ_setQ_ne s i j rest hj]
                    calc getQ s j = getQ (addEv (Ev.invoke id) (setQ s i rest)) j := h1.symm
                      _ <+: _ := applyEffs_pref _ _ _
                  have hrun1 : (applyEffs effs (addEv (Ev.invoke id) (setQ s i rest))).running
                      = s.running := by
                    rw [applyEffs_running, running_addEv, running_setQ]
                  obtain ⟨hq', ext2, htr2, hinv2, hcomp2, hpre2, hrun2⟩ := ih _ s' h
                  refine ⟨hq', Ev.invoke id :: ext2, ?_, ?_, ?_, ?_, ?_⟩
                  · rw [htr2, htr1]; simp
                  · intro e he
                    rcases List.mem_cons.mp he with h1 | h1
                    · exact ⟨id, h1⟩
                    · exact hinv2 e h1
                  · intro t' ht'
                    rcases List.mem_cons.mp ht' with h1 | h1
                    · subst h1; simp [Task.tid]
                    · have : t' ∈ getQ (applyEffs effs (addEv (Ev.invoke id) (setQ s i rest))) i :=
                        hqpre1.subset h1
                      exact List.mem_cons_of_mem _ (hcomp2 t' this)
                  · intro j hj
                    exact (hpre1 j hj).trans (hpre2 j hj)
                  · rw [hrun2, hrun1]

/-! ### Lemmas about `runPhaseLoop` (the while-loop of runPhase) -/

theorem runPhaseLoop_of_empty (i : QId) (fuel : Nat) (s : St) (h : getQ s i = []) :
    runPhaseLoop i fuel s = R.ok s := by
  cases fuel <;> simp [runPhaseLoop, h]

/-- Facts about the state reached right after a phase-queue head has
been shifted (ghost event `e` recorded) and invoked. -/
theorem stepState_facts (e : Ev) (id : Nat) (effs : List (QId × Task)) (s : St) (i : QId)
    (rest : List Task) :
    (applyEffs effs (addEv (Ev.invoke id) (setQ (addEv e s) i rest))).trace
        = s.trace ++ [e, Ev.invoke id] ∧
    rest <+: getQ (applyEffs effs (addEv (Ev.invoke id) (setQ (addEv e s) i rest))) i ∧
    (∀ j, j ≠ i → getQ s j <+:
        getQ (applyEffs effs (addEv (Ev.invoke id) (setQ (addEv e s) i rest))) j) ∧
    (applyEffs effs (addEv (Ev.invoke id) (setQ (addEv e s) i rest))).running = s.running := by
  refine ⟨?_, ?_, ?_, ?_⟩
  · rw [applyEffs_trace, trace_addEv, trace_setQ, trace_addEv]
    simp
  · have h1 : getQ (addEv (Ev.invoke id) (setQ (addEv e s) i rest)) i = rest := by
      rw [getQ_addEv, getQ_setQ_self]
    calc rest = getQ (addEv (Ev.invoke id) (setQ (addEv e s) i rest)) i := h1.symm
      _ <+: _ := applyEffs_pref _ _ _
  · intro j hj
    have h1 : getQ (addEv (Ev.invoke id) (setQ (addEv e s) i rest)) j = getQ s j := by
      rw [getQ_addEv, getQ_setQ_ne _ i j rest hj, getQ_addEv]
    calc getQ s j = getQ (addEv (Ev.invoke id) (setQ (addEv e s) i rest)) j := h1.symm
      _ <+: _ := applyEffs_pref _ _ _
  · rw [applyEffs_running, running_addEv, running_setQ, running_addEv]

/-- Structural facts about a finished or aborted phase loop: the trace
grows by events whose dequeue records all carry this phase's name, and
queues other than the phase queue and the microtask queue are only
appended to. -/
theorem runPhaseLoop_some_spec (i : QId) :
    ∀ (fuel : Nat) (s s' : St), (runPhaseLoop i fuel s).st? = some s' →
      (∃ ext, s'.trace = s.trace ++ ext ∧
        ∀ p nt mt, Ev.deq p nt mt ∈ ext → p = i) ∧
      (∀ j, j ≠ i → j ≠ QId.microtasks → getQ s j <+: getQ s' j) ∧
      s'.running = s.running := by
  intro fuel
  induction fuel with
  | zero =>
      intro s s' h
      cases hq : getQ s i with
      | nil =>
          simp [runPhaseLoop, hq, R.st?] at h
          subst h
          exact ⟨⟨[], by simp, by simp⟩, fun j _ _ => List.prefix_refl _, rfl⟩
      | cons t rest => simp [runPhaseLoop, hq, R.st?] at h
  | succ fuel ih =>
      intro s s' h
      cases hq : getQ s i with
      | nil =>
          simp [runPhaseLoop, hq, R.st?] at h
          subst h
          exact ⟨⟨[], by simp, by simp⟩, fun j _ _ => List.prefix_refl _, rfl⟩
      | cons t rest =>
          cases t with
          | notCallable id =>
              simp [runPhaseLoop, hq, runTask, R.st?] at h
              subst h
              refine ⟨⟨[Ev.deq i (getQ s .nextTick).isEmpty (getQ s .microtasks).isEmpty], ?_, ?_⟩,
                ?_, ?_⟩
              · rw [trace_setQ, trace_addEv]
              · intro p nt mt hmem; simp at hmem; exact hmem.1
              · intro j hj _
                rw [getQ_setQ_ne _ i j rest hj, getQ_addEv]
              · rw [running_setQ, running_addEv]
          | mk id effs thr =>
              obtain ⟨htr1, hqpre1, hpre1, hrun1⟩ :=
                stepState_facts (Ev.deq i (getQ s .nextTick).isEmpty (getQ s .microtasks).isEmpty)
                  id effs s i rest
              cases thr with
              | true =>
                  simp only [runPhaseLoop, hq, runTask, R.st?, if_true, Option.some.injEq] at h
                  subst h
                  refine ⟨⟨_, htr1, ?_⟩, fun j hj _ => hpre1 j hj, hrun1⟩
                  intro p nt mt hmem
                  simp at hmem
                  exact hmem.1
              | false =>
                  simp only [runPhaseLoop, hq, runTask, runMicrotasks, if_false,
                    Bool.false_eq_true, ite_false] at h
                  set p1 : St := applyEffs effs (addEv (Ev.invoke id)
                    (setQ (addEv (Ev.deq i (getQ s .nextTick).isEmpty
                      (getQ s .microtasks).isEmpty) s) i rest)) with hp1
                  cases hm : drain QId.microtasks fuel p1 with
                  | out => rw [hm] at h; simp [R.st?] at h
                  | exn s2 =>
                      rw [hm] at h
                      have hs : s2 = s' := by simpa [R.st?] using h
                      subst hs
                      obtain ⟨⟨extm, htrm, hinvm⟩, hprem, hrunm⟩ :=
                        drain_some_spec QId.microtasks fuel p1 s2 (by rw [hm]; rfl)
                      refine ⟨⟨[Ev.deq i (getQ s .nextTick).isEmpty (getQ s .microtasks).isEmpty,
                        Ev.invoke id] ++ extm, ?_, ?_⟩, ?_, ?_⟩
                      · rw [htrm, htr1]; simp
                      · intro p nt mt hmem
                        rcases List.mem_append.mp hmem with h1 | h1
                        · simp at h1; exact h1.1
                        · obtain ⟨n, hn⟩ := hinvm _ h1; simp at hn
                      · intro j hj hjm
                        exact (hpre1 j hj).trans (hprem j hjm)
                      · rw [hrunm, hrun1]
                  | ok s2 =>
                      rw [hm] at h
                      obtain ⟨⟨ext2, htr2, hdeq2⟩, hpre2, hrun2⟩ := ih s2 s' h
                      obtain ⟨⟨extm, htrm, hinvm⟩, hprem, hrunm⟩ :=
                        drain_some_spec QId.microtasks fuel p1 s2 (by rw [hm]; rfl)
                      refine ⟨⟨[Ev.deq i (getQ s .nextTick).isEmpty (getQ s .microtasks).isEmpty,
                        Ev.invoke id] ++ extm ++ ext2, ?_, ?_⟩, ?_, ?_⟩
                      · rw [htr2, htrm, htr1]; simp
                      · intro p nt mt hmem
                        rcases List.mem_append.mp hmem with h1 | h1
                        · rcases List.mem_append.mp h1 with h2 | h2
                          · simp at h2; exact h2.1
                          · obtain ⟨n, hn⟩ := hinvm _ h2; simp at hn
                        · exact hdeq2 p nt mt h1
                      · intro j hj hjm
                        exact ((hpre1 j hj).trans (hprem j hjm)).trans (hpre2 j hj hjm)
                      · rw [hrun2, hrunm, hrun1]

/-- If the phase loop is entered with at least one priority queue
empty, then every dequeue of a phase item it performs happens with at
least one priority queue empty. -/
theorem runPhaseLoop_deq_flags (i : QId) :
    ∀ (fuel : Nat) (s s' : St),
      getQ s .nextTick = [] ∨ getQ s .microtasks = [] →
      (runPhaseLoop i fuel s).st? = some s' →
      ∃ ext, s'.trace = s.trace ++ ext ∧
        ∀ p nt mt, Ev.deq p nt mt ∈ ext → nt = true ∨ mt = true := by
  intro fuel
  induction fuel with
  | zero =>
      intro s s' _ h
      cases hq : getQ s i with
      | nil =>
          simp [runPhaseLoop, hq, R.st?] at h
          subst h
          exact ⟨[], by simp, by simp⟩
      | cons t rest => simp [runPhaseLoop, hq, R.st?] at h
  | succ fuel ih =>
      intro s s' hpq h
      have hflag : (getQ s .nextTick).isEmpty = true ∨ (getQ s .microtasks).isEmpty = true := by
        rcases hpq with h1 | h1
        · exact Or.inl (by simp [h1])
        · exact Or.inr (by simp [h1])
      cases hq : getQ s i with
      | nil =>
          simp [runPhaseLoop, hq, R.st?] at h
          subst h
          exact ⟨[], by simp, by simp⟩
      | cons t rest =>
          cases t with
          | notCallable id =>
              simp [runPhaseLoop, hq, runTask, R.st?] at h
              subst h
              refine ⟨[Ev.deq i (getQ s .nextTick).isEmpty (getQ s .microtasks).isEmpty], ?_, ?_⟩
              · rw [trace_setQ, trace_addEv]
              · intro p nt mt hmem
                simp at hmem
                rcases hmem with ⟨_, h2, h3⟩
                subst h2; subst h3
                exact hflag
          | mk id effs thr =>
              obtain ⟨htr1, hqpre1, hpre1, hrun1⟩ :=
                stepState_facts (Ev.deq i (getQ s .nextTick).isEmpty (getQ s .microtasks).isEmpty)
                  id effs s i rest
              cases thr with
              | true =>
                  simp only [runPhaseLoop, hq, runTask, R.st?, if_true, Option.some.injEq] at h
                  subst h
                  refine ⟨_, htr1, ?_⟩
                  intro p nt mt hmem
                  simp at hmem
                  rcases hmem with ⟨_, h2, h3⟩
                  subst h2; subst h3
                  exact hflag
              | false =>
                  simp only [runPhaseLoop, hq, runTask, runMicrotasks, if_false,
                    Bool.false_eq_true, ite_false] at h
                  set p1 : St := applyEffs effs (addEv (Ev.invoke id)
                    (setQ (addEv (Ev.deq i (getQ s .nextTick).isEmpty
                      (getQ s .microtasks).isEmpty) s) i rest)) with hp1
                  cases hm : drain QId.microtasks fuel p1 with
                  | out => rw [hm] at h; simp [R.st?] at h
                  | exn s2 =>
                      rw [hm] at h
                      have hs : s2 = s' := by simpa [R.st?] using h
                      subst hs
                      obtain ⟨⟨extm, htrm, hinvm⟩, hprem, hrunm⟩ :=
                        drain_some_spec QId.microtasks fuel p1 s2 (by rw [hm]; rfl)
                      refine ⟨[Ev.deq i (getQ s .nextTick).isEmpty (getQ s .microtasks).isEmpty,
                        Ev.invoke id] ++ extm, ?_, ?_⟩
                      · rw [htrm, htr1]; simp
                      · intro p nt mt hmem
                        rcases List.mem_append.mp hmem with h1 | h1
                        · simp at h1
                          rcases h1 with ⟨_, h2, h3⟩
                          subst h2; subst h3
                          exact hflag
                        · obtain ⟨n, hn⟩ := hinvm _ h1; simp at hn
                  | ok s2 =>
                      rw [hm] at h
                      obtain ⟨hmq, extm, htrm, hinvm, _, _, _⟩ :=
                        drain_ok_spec QId.microtasks fuel p1 s2 hm
                      obtain ⟨ext2, htr2, hdeq2⟩ := ih s2 s' (Or.inr hmq) h
                      refine ⟨[Ev.deq i (getQ s .nextTick).isEmpty (getQ s .microtasks).isEmpty,
                        Ev.invoke id] ++ extm ++ ext2, ?_, ?_⟩
                      · rw [htr2, htrm, htr1]; simp
                      · intro p nt mt hmem
                        rcases List.mem_append.mp hmem with h1 | h1
                        · rcases List.mem_append.mp h1 with h2 | h2
                          · simp at h2
                            rcases h2 with ⟨_, h3, h4⟩
                            subst h3; subst h4
                            exact hflag
                          · obtain ⟨n, hn⟩ := hinvm _ h2; simp at hn
                        · exact hdeq2 p nt mt h1

/-- If the phase loop is entered with the microtask queue empty, then
every dequeue of a phase item it performs happens with the microtask
queue empty: all microtasks enqueued by earlier phase items of this
loop have been executed before the next phase item is removed. -/
theorem runPhaseLoop_mt_flags (i : QId) :
    ∀ (fuel : Nat) (s s' : St),
      getQ s .microtasks = [] →
      (runPhaseLoop i fuel s).st? = some s' →
      ∃ ext, s'.trace = s.trace ++ ext ∧
        ∀ p nt mt, Ev.deq p nt mt ∈ ext → mt = true := by
  intro fuel
  induction fuel with
  | zero =>
      intro s s' _ h
      cases hq : getQ s i with
      | nil =>
          simp [runPhaseLoop, hq, R.st?] at h
          subst h
          exact ⟨[], by simp, by simp⟩
      | cons t rest => simp [runPhaseLoop, hq, R.st?] at h
  | succ fuel ih =>
      intro s s' hpq h
      have hflag : (getQ s .microtasks).isEmpty = true := by simp [hpq]
      cases hq : getQ s i with
      | nil =>
          simp [runPhaseLoop, hq, R.st?] at h
          subst h
          exact ⟨[], by simp, by simp⟩
      | cons t rest =>
          cases t with
          | notCallable id =>
              simp [runPhaseLoop, hq, runTask, R.st?] at h
              subst h
              refine ⟨[Ev.deq i (getQ s .nextTick).isEmpty (getQ s .microtasks).isEmpty], ?_, ?_⟩
              · rw [trace_setQ, trace_addEv]
              · intro p nt mt hmem
                simp at hmem
                rcases hmem with ⟨_, _, h3⟩
                subst h3
                exact hflag
          | mk id effs thr =>
              obtain ⟨htr1, hqpre1, hpre1, hrun1⟩ :=
                stepState_facts (Ev.deq i (getQ s .nextTick).isEmpty (getQ s .microtasks).isEmpty)
                  id effs s i rest
              cases thr with
              | true =>
                  simp only [runPhaseLoop, hq, runTask, R.st?, if_true, Option.some.injEq] at h
                  subst h
                  refine ⟨_, htr1, ?_⟩
                  intro p nt mt hmem
                  simp at hmem
                  rcases hmem with ⟨_, _, h3⟩
                  subst h3
                  exact hflag
              | false =>
                  simp only [runPhaseLoop, hq, runTask, runMicrotasks, if_false,
                    Bool.false_eq_true, ite_false] at h
                  set p1 : St := applyEffs effs (addEv (Ev.invoke id)
                    (setQ (addEv (Ev.deq i (getQ s .nextTick).isEmpty
                      (getQ s .microtasks).isEmpty) s) i rest)) with hp1
                  cases hm : drain QId.microtasks fuel p1 with
                  | out => rw [hm] at h; simp [R.st?] at h
                  | exn s2 =>
                      rw [hm] at h
                      have hs : s2 = s' := by simpa [R.st?] using h
                      subst hs
                      obtain ⟨⟨extm, htrm, hinvm⟩, hprem, hrunm⟩ :=
                        drain_some_spec QId.microtasks fuel p1 s2 (by rw [hm]; rfl)
                      refine ⟨[Ev.deq i (getQ s .nextTick).isEmpty (getQ s .microtasks).isEmpty,
                        Ev.invoke id] ++ extm, ?_, ?_⟩
                      · rw [htrm, htr1]; simp
                      · intro p nt mt hmem
                        rcases List.mem_append.mp hmem with h1 | h1
                        · simp at h1
                          rcases h1 with ⟨_, _, h3⟩
                          subst h3
                          exact hflag
                        · obtain ⟨n, hn⟩ := hinvm _ h1; simp at hn
                  | ok s2 =>
                      rw [hm] at h
                      obtain ⟨hmq, extm, htrm, hinvm, _, _, _⟩ :=
                        drain_ok_spec QId.microtasks fuel p1 s2 hm
                      obtain ⟨ext2, htr2, hdeq2⟩ := ih s2 s' hmq h
                      refine ⟨[Ev.deq i (getQ s .nextTick).isEmpty (getQ s .microtasks).isEmpty,
                        Ev.invoke id] ++ extm ++ ext2, ?_, ?_⟩
                      · rw [htr2, htrm, htr1]; simp
                      · intro p nt mt hmem
                        rcases List.mem_append.mp hmem with h1 | h1
                        · rcases List.mem_append.mp h1 with h2 | h2
                          · simp at h2
                            rcases h2 with ⟨_, _, h4⟩
                            subst h4
                            exact hflag
                          · obtain ⟨n, hn⟩ := hinvm _ h2; simp at hn
                        · exact hdeq2 p nt mt h1

/-- A phase loop that terminates normally has emptied the phase queue
and invoked every task that was in it at the start of the loop. -/
theorem runPhaseLoop_ok_spec (i : QId) (him : i ≠ QId.microtasks) :
    ∀ (fuel : Nat) (s s' : St), runPhaseLoop i fuel s = R.ok s' →
      getQ s' i = [] ∧
      ∃ ext, s'.trace = s.trace ++ ext ∧
        ∀ t ∈ getQ s i, Ev.invoke t.tid ∈ ext := by
  intro fuel
  induction fuel with
  | zero =>
      intro s s' h
      cases hq : getQ s i with
      | nil =>
          simp [runPhaseLoop, hq] at h
          subst h
          exact ⟨hq, [], by simp, by simp [hq]⟩
      | cons t rest => simp [runPhaseLoop, hq] at h
  | succ fuel ih =>
      intro s s' h
      cases hq : getQ s i with
      | nil =>
          simp [runPhaseLoop, hq] at h
          subst h
          exact ⟨hq, [], by simp, by simp [hq]⟩
      | cons t rest =>
          cases t with
          | notCallable id => simp [runPhaseLoop, hq, runTask] at h
          | mk id effs thr =>
              obtain ⟨htr1, hqpre1, hpre1, hrun1⟩ :=
                stepState_facts (Ev.deq i (getQ s .nextTick).isEmpty (getQ s .microtasks).isEmpty)
                  id effs s i rest
              cases thr with
              | true => simp [runPhaseLoop, hq, runTask] at h
              | false =>
                  simp only [runPhaseLoop, hq, runTask, runMicrotasks, if_false,
                    Bool.false_eq_true, ite_false] at h
                  set p1 : St := applyEffs effs (addEv (Ev.invoke id)
                    (setQ (addEv (Ev.deq i (getQ s .nextTick).isEmpty
                      (getQ s .microtasks).isEmpty) s) i rest)) with hp1
                  cases hm : drain QId.microtasks fuel p1 with
                  | out => rw [hm] at h; cases h
                  | exn s2 => rw [hm] at h; cases h
                  | ok s2 =>
                      rw [hm] at h
                      obtain ⟨hq', ext2, htr2, hcomp2⟩ := ih s2 s' h
                      obtain ⟨_, extm, htrm, _, _, hprem, _⟩ :=
                        drain_ok_spec QId.microtasks fuel p1 s2 hm
                      refine ⟨hq', [Ev.deq i (getQ s .nextTick).isEmpty
                        (getQ s .microtasks).isEmpty, Ev.invoke id] ++ extm ++ ext2, ?_, ?_⟩
                      · rw [htr2, htrm, htr1]; simp
                      · intro t' ht'
                        rcases List.mem_cons.mp ht' with h1 | h1
                        · subst h1; simp [Task.tid]
                        · have h2 : t' ∈ getQ p1 i := hqpre1.subset h1
                          have h3 : t' ∈ getQ s2 i := (hprem i him).subset h2
                          exact List.mem_append_right _ (hcomp2 t' h3)

/-- `runPhase` that returns normally: the initial nextTick drain
executes (invoke events only) every task that was in the nextTick queue
when the phase began, before the phase loop dequeues and executes every
task of the phase queue; the phase queue ends empty, other phase queues
are only appended to, and the running flag is untouched. -/
theorem runPhase_ok_spec (i : QId) (hint : i ≠ QId.nextTick) (him : i ≠ QId.microtasks)
    (fuel : Nat) (s s' : St) (h : runPhase i fuel s = R.ok s') :
    getQ s' i = [] ∧
    ∃ ext1 ext2, s'.trace = s.trace ++ ext1 ++ ext2 ∧
      (∀ e ∈ ext1, ∃ n, e = Ev.invoke n) ∧
      (∀ t ∈ getQ s .nextTick, Ev.invoke t.tid ∈ ext1) ∧
      (∀ t ∈ getQ s i, Ev.invoke t.tid ∈ ext2) ∧
      (∀ p nt mt, Ev.deq p nt mt ∈ ext2 → p = i) ∧
      (∀ j, j ≠ i → j ≠ QId.nextTick → j ≠ QId.microtasks → getQ s j <+: getQ s' j) ∧
      s'.running = s.running := by
  rw [runPhase, runNextTick] at h
  cases hd : drain QId.nextTick fuel s with
  | out =>
      rw [hd] at h
      have h2 : R.out = R.ok s' := h
      cases h2
  | exn s1 =>
      rw [hd] at h
      have h2 : R.exn s1 = R.ok s' := h
      cases h2
  | ok s1 =>
      rw [hd] at h
      have h2 : runPhaseLoop i fuel s1 = R.ok s' := h
      obtain ⟨hnt1, ext1, htr1, hinv1, hcomp1, hpre1, hrun1⟩ :=
        drain_ok_spec QId.nextTick fuel s s1 hd
      obtain ⟨hq', ext2, htr2, hcomp2⟩ := runPhaseLoop_ok_spec i him fuel s1 s' h2
      obtain ⟨⟨ext2b, htr2b, hdeq2b⟩, hpre2, hrun2⟩ :=
        runPhaseLoop_some_spec i fuel s1 s' (by rw [h2]; rfl)
      have hext : ext2b = ext2 := by
        have he : s1.trace ++ ext2b = s1.trace ++ ext2 := by rw [← htr2b, ← htr2]
        exact List.append_cancel_left he
      subst hext
      refine ⟨hq', ext1, ext2b, ?_, hinv1, hcomp1, ?_, hdeq2b, ?_, ?_⟩
      · rw [htr2, htr1]
      · intro t ht
        have h2 : t ∈ getQ s1 i := (hpre1 i hint).subset ht
        exact hcomp2 t h2
      · intro j hj hjn hjm
        exact (hpre1 j hjn).trans (hpre2 j hj hjm)
      · rw [hrun2, hrun1]

/-- `runPhase` that finishes or aborts: every phase-item dequeue it
records carries this phase's name and happens with at least one
priority queue empty; other phase queues are only appended to. -/
theorem runPhase_some_spec (i : QId) (fuel : Nat) (s s' : St)
    (h : (runPhase i fuel s).st? = some s') :
    ∃ ext, s'.trace = s.trace ++ ext ∧
      (∀ p nt mt, Ev.deq p nt mt ∈ ext → p = i ∧ (nt = true ∨ mt = true)) ∧
      (∀ j, j ≠ i → j ≠ QId.nextTick → j ≠ QId.microtasks → getQ s j <+: getQ s' j) ∧
      s'.running = s.running := by
  rw [runPhase, runNextTick] at h
  cases hd : drain QId.nextTick fuel s with
  | out =>
      rw [hd] at h
      have h2 : R.out.st? = some s' := h
      simp [R.st?] at h2
  | exn s1 =>
      rw [hd] at h
      have h2 : (R.exn s1).st? = some s' := h
      have hs : s1 = s' := by simpa [R.st?] using h2
      subst hs
      obtain ⟨⟨ext, htr, hinv⟩, hpre, hrun⟩ :=
        drain_some_spec QId.nextTick fuel s s1 (by rw [hd]; rfl)
      refine ⟨ext, htr, ?_, ?_, hrun⟩
      · intro p nt mt hmem
        obtain ⟨n, hn⟩ := hinv _ hmem
        simp at hn
      · intro j hj hjn hjm
        exact hpre j hjn
  | ok s1 =>
      rw [hd] at h
      have h2 : (runPhaseLoop i fuel s1).st? = some s' := h
      obtain ⟨hnt1, ext1, htr1, hinv1, hcomp1, hpre1, hrun1⟩ :=
        drain_ok_spec QId.nextTick fuel s s1 hd
      obtain ⟨⟨ext2, htr2, hdeq2⟩, hpre2, hrun2⟩ := runPhaseLoop_some_spec i fuel s1 s' h2
      obtain ⟨ext2b, htr2b, hflag2⟩ := runPhaseLoop_deq_flags i fuel s1 s' (Or.inl hnt1) h2
      have hext : ext2b = ext2 := by
        have he : s1.trace ++ ext2b = s1.trace ++ ext2 := by rw [← htr2b, ← htr2]
        exact List.append_cancel_left he
      subst hext
      refine ⟨ext1 ++ ext2b, ?_, ?_, ?_, ?_⟩
      · rw [htr2, htr1]; simp
      · intro p nt mt hmem
        rcases List.mem_append.mp hmem with h1 | h1
        · obtain ⟨n, hn⟩ := hinv1 _ h1; simp at hn
        · exact ⟨hdeq2 p nt mt h1, hflag2 p nt mt h1⟩
      · intro j hj hjn hjm
        exact (hpre1 j hjn).trans (hpre2 j hj hjm)
      · rw [hrun2, hrun1]

/-! ### Lemmas about `tick` -/

theorem bindOk_ok_inv (r : R) (f : St → R) (s' : St) (h : bindOk r f = R.ok s') :
    ∃ s1, r = R.ok s1 ∧ f s1 = R.ok s' := by
  cases r with
  | ok s1 => exact ⟨s1, rfl, h⟩
  | exn e => simp [bindOk] at h
  | out => simp [bindOk] at h

theorem bindOk_st?_inv (r : R) (f : St → R) (s' : St) (h : (bindOk r f).st? = some s') :
    (∃ s1, r = R.ok s1 ∧ (f s1).st? = some s') ∨ r = R.exn s' := by
  cases r with
  | ok s1 => exact Or.inl ⟨s1, rfl, h⟩
  | exn e =>
      have h2 : (R.exn e).st? = some s' := h
      have h3 : e = s' := by simpa [R.st?] using h2
      subst h3
      exact Or.inr rfl
  | out =>
      have h2 : R.out.st? = some s' := h
      simp [R.st?] at h2

theorem bindOk_exn_inv (r : R) (f : St → R) (e : St) (h : bindOk r f = R.exn e) :
    r = R.exn e ∨ ∃ s1, r = R.ok s1 ∧ f s1 = R.exn e := by
  cases r with
  | ok s1 => exact Or.inr ⟨s1, rfl, h⟩
  | exn x => exact Or.inl h
  | out => simp [bindOk] at h

theorem flagChain {a b c : St}
    (h1 : ∃ ext, b.trace = a.trace ++ ext ∧
      ∀ p nt mt, Ev.deq p nt mt ∈ ext → nt = true ∨ mt = true)
    (h2 : ∃ ext, c.trace = b.trace ++ ext ∧
      ∀ p nt mt, Ev.deq p nt mt ∈ ext → nt = true ∨ mt = true) :
    ∃ ext, c.trace = a.trace ++ ext ∧
      ∀ p nt mt, Ev.deq p nt mt ∈ ext → nt = true ∨ mt = true := by
  obtain ⟨e1, hb, f1⟩ := h1
  obtain ⟨e2, hc, f2⟩ := h2
  refine ⟨e1 ++ e2, by rw [hc, hb, List.append_assoc], ?_⟩
  intro p nt mt hm
  rcases List.mem_append.mp hm with hx | hx
  · exact f1 p nt mt hx
  · exact f2 p nt mt hx

theorem runPhase_flag (i : QId) (fuel : Nat) (s s' : St)
    (h : (runPhase i fuel s).st? = some s') :
    ∃ ext, s'.trace = s.trace ++ ext ∧
      ∀ p nt mt, Ev.deq p nt mt ∈ ext → nt = true ∨ mt = true := by
  obtain ⟨ext, htr, hflags, _, _⟩ := runPhase_some_spec i fuel s s' h
  exact ⟨ext, htr, fun p nt mt hm => (hflags p nt mt hm).2⟩

/-- Any finished or aborted `tick` dequeues phase items only at moments
where at least one priority queue is empty. -/
theorem tick_flag (fuel : Nat) (s s' : St) (h : (tick fuel s).st? = some s') :
    ∃ ext, s'.trace = s.trace ++ ext ∧
      ∀ p nt mt, Ev.deq p nt mt ∈ ext → nt = true ∨ mt = true := by
  rw [tick] at h
  rcases bindOk_st?_inv _ _ _ h with ⟨s1, h1, hn⟩ | h1
  case inr => exact runPhase_flag _ _ _ _ (by rw [h1]; rfl)
  have f1 := runPhase_flag QId.timers fuel s s1 (by rw [h1]; rfl)
  rcases bindOk_st?_inv _ _ _ hn with ⟨s2, h2, hn2⟩ | h2
  case inr => exact flagChain f1 (runPhase_flag _ _ _ _ (by rw [h2]; rfl))
  have f2 := runPhase_flag QId.pendingCallbacks fuel s1 s2 (by rw [h2]; rfl)
  rcases bindOk_st?_inv _ _ _ hn2 with ⟨s3, h3, hn3⟩ | h3
  case inr => exact flagChain f1 (flagChain f2 (runPhase_flag _ _ _ _ (by rw [h3]; rfl)))
  have f3 := runPhase_flag QId.idlePrepare fuel s2 s3 (by rw [h3]; rfl)
  rcases bindOk_st?_inv _ _ _ hn3 with ⟨s4, h4, hn4⟩ | h4
  case inr =>
    exact flagChain f1 (flagChain f2 (flagChain f3 (runPhase_flag _ _ _ _ (by rw [h4]; rfl))))
  have f4 := runPhase_flag QId.poll fuel s3 s4 (by rw [h4]; rfl)
  rcases bindOk_st?_inv _ _ _ hn4 with ⟨s5, h5, hn5⟩ | h5
  case inr =>
    exact flagChain f1 (flagChain f2 (flagChain f3 (flagChain f4
      (runPhase_flag _ _ _ _ (by rw [h5]; rfl)))))
  have f5 := runPhase_flag QId.check fuel s4 s5 (by rw [h5]; rfl)
  have f6 := runPhase_flag QId.closeCallbacks fuel s5 s' hn5
  exact flagChain f1 (flagChain f2 (flagChain f3 (flagChain f4 (flagChain f5 f6))))

/-- A normally completing `tick` is exactly the sequential success of
its six `runPhase` calls. -/
theorem tick_ok_inv (fuel : Nat) (s s' : St) (h : tick fuel s = R.ok s') :
    ∃ s1 s2 s3 s4 s5,
      runPhase .timers fuel s = R.ok s1 ∧
      runPhase .pendingCallbacks fuel s1 = R.ok s2 ∧
      runPhase .idlePrepare fuel s2 = R.ok s3 ∧
      runPhase .poll fuel s3 = R.ok s4 ∧
      runPhase .check fuel s4 = R.ok s5 ∧
      runPhase .closeCallbacks fuel s5 = R.ok s' := by
  rw [tick] at h
  obtain ⟨s1, h1, h⟩ := bindOk_ok_inv _ _ _ h
  obtain ⟨s2, h2, h⟩ := bindOk_ok_inv _ _ _ h
  obtain ⟨s3, h3, h⟩ := bindOk_ok_inv _ _ _ h
  obtain ⟨s4, h4, h⟩ := bindOk_ok_inv _ _ _ h
  obtain ⟨s5, h5, h⟩ := bindOk_ok_inv _ _ _ h
  exact ⟨s1, s2, s3, s4, s5, h1, h2, h3, h4, h5, h⟩

/-! ### Re-entrant enqueue helper lemmas -/

/-- A task at the head of queue `i` that enqueues another task into the
same queue `i`: the drain of `i` invokes both before returning. -/
theorem drain_reentrant_same (i : QId) (id : Nat) (t : Task) (rest : List Task)
    (fuel : Nat) (s s' : St)
    (hq : getQ s i = Task.mk id [(i, t)] false :: rest)
    (h : drain i fuel s = R.ok s') :
    ∃ ext, s'.trace = s.trace ++ ext ∧ Ev.invoke id ∈ ext ∧ Ev.invoke t.tid ∈ ext := by
  cases fuel with
  | zero => simp [drain, hq] at h
  | succ fuel =>
      simp only [drain, hq, runTask, if_false, Bool.false_eq_true, ite_false] at h
      have hp1q : getQ (applyEffs [(i, t)] (addEv (Ev.invoke id) (setQ s i rest))) i
          = rest ++ [t] := by
        show getQ (pushQ i t (addEv (Ev.invoke id) (setQ s i rest))) i = rest ++ [t]
        rw [getQ_pushQ_self, getQ_addEv, getQ_setQ_self]
      have htr1 : (applyEffs [(i, t)] (addEv (Ev.invoke id) (setQ s i rest))).trace
          = s.trace ++ [Ev.invoke id] := by
        show (pushQ i t (addEv (Ev.invoke id) (setQ s i rest))).trace = _
        rw [trace_pushQ, trace_addEv, trace_setQ]
      obtain ⟨_, ext2, htr2, _, hcomp2, _, _⟩ := drain_ok_spec i fuel _ s' h
      refine ⟨Ev.invoke id :: ext2, ?_, by simp, ?_⟩
      · rw [htr2, htr1]; simp
      · have hmem : t ∈ getQ (applyEffs [(i, t)] (addEv (Ev.invoke id) (setQ s i rest))) i := by
          rw [hp1q]; simp
        exact List.mem_cons_of_mem _ (hcomp2 t hmem)

/-- A microtask that enqueues a task into nextTick: the task is still
sitting in nextTick when the microtask drain returns, and it is invoked
by the next completed drain of nextTick. -/
theorem microtask_enqueue_nextTick_deferred (id : Nat) (t : Task) (rest : List Task)
    (fuel : Nat) (s s' : St)
    (hq : getQ s .microtasks = Task.mk id [(QId.nextTick, t)] false :: rest)
    (h : drain .microtasks fuel s = R.ok s') :
    t ∈ getQ s' .nextTick ∧
    ∀ (fuel2 : Nat) (s'' : St), drain .nextTick fuel2 s' = R.ok s'' →
      ∃ ext, s''.trace = s'.trace ++ ext ∧ Ev.invoke t.tid ∈ ext := by
  cases fuel with
  | zero => simp [drain, hq] at h
  | succ fuel =>
      simp only [drain, hq, runTask, if_false, Bool.false_eq_true, ite_false] at h
      have hp1 : t ∈ getQ (applyEffs [(QId.nextTick, t)]
          (addEv (Ev.invoke id) (setQ s QId.microtasks rest))) QId.nextTick := by
        show t ∈ getQ (pushQ QId.nextTick t
          (addEv (Ev.invoke id) (setQ s QId.microtasks rest))) QId.nextTick
        rw [getQ_pushQ_self]
        simp
      obtain ⟨_, _, _, _, _, hpre2, _⟩ := drain_ok_spec QId.microtasks fuel _ s' h
      have hmem : t ∈ getQ s' QId.nextTick := (hpre2 QId.nextTick (by decide)).subset hp1
      refine ⟨hmem, ?_⟩
      intro fuel2 s'' h2
      obtain ⟨_, ext, htr, _, hcomp, _, _⟩ := drain_ok_spec QId.nextTick fuel2 s' s'' h2
      exact ⟨ext, htr, hcomp t hmem⟩

/-! ### Claim theorems -/

/-- C1 (corrected): at the start of every run-phase call the code
drains only priority-immediate (the nextTick queue): every item already
in nextTick when the phase starts executes — in an invoke-only trace
segment — before any item of the phase queue is dequeued or invoked
(every phase-item dequeue and every phase-item invocation lies in the
later segment).  Priority-deferred (microtasks) is not flushed at phase
start (see the counterexample). -/
theorem runPhase_flushes_nextTick_first (i : QId) (fuel : Nat) (s s' : St)
    (hint : i ≠ QId.nextTick) (him : i ≠ QId.microtasks)
    (h : runPhase i fuel s = R.ok s') :
    ∃ ext1 ext2, s'.trace = s.trace ++ ext1 ++ ext2 ∧
      (∀ e ∈ ext1, ∃ n, e = Ev.invoke n) ∧
      (∀ t ∈ getQ s .nextTick, Ev.invoke t.tid ∈ ext1) ∧
      (∀ t ∈ getQ s i, Ev.invoke t.tid ∈ ext2) ∧
      (∀ p nt mt, Ev.deq p nt mt ∈ ext2 → p = i) := by
  obtain ⟨_, ext1, ext2, htr, hinv, hcomp1, hcomp2, hdeq, _, _⟩ :=
    runPhase_ok_spec i hint him fuel s s' h
  exact ⟨ext1, ext2, htr, hinv, hcomp1, hcomp2, hdeq⟩

/-- C1 counterexample: with a microtask (id 2) already in
priority-deferred before the tick and a timer (id 1) enqueued earlier,
the timer executes first — the microtask does not execute before the
phase-queue item, refuting the claimed full priority flush at phase
start. -/
theorem microtasks_not_flushed_at_phase_start :
    Ev.invoke 2 ∈ traceOf (tick 10 sC1) ∧
    invokedBefore (traceOf (tick 10 sC1)) 2 1 = false ∧
    invokedBefore (traceOf (tick 10 sC1)) 1 2 = true := by decide

/-- C1 witness: concrete instance of the corrected phase-start flush
property. -/
theorem runPhase_flushes_nextTick_first_witness :
    QId.timers ≠ QId.nextTick ∧ QId.timers ≠ QId.microtasks ∧
    runPhase QId.timers 5 wC1 = R.ok wC1r ∧
    (∃ ext1 ext2, wC1r.trace = wC1.trace ++ ext1 ++ ext2 ∧
      (∀ e ∈ ext1, ∃ n, e = Ev.invoke n) ∧
      (∀ t ∈ getQ wC1 .nextTick, Ev.invoke t.tid ∈ ext1) ∧
      (∀ t ∈ getQ wC1 QId.timers, Ev.invoke t.tid ∈ ext2) ∧
      (∀ p nt mt, Ev.deq p nt mt ∈ ext2 → p = QId.timers)) :=
  ⟨by decide, by decide, rfl,
    runPhase_flushes_nextTick_first QId.timers 5 wC1 wC1r (by decide) (by decide) rfl⟩

/-- C2 (corrected): at every removal of a phase-queue item at least one
of the two priority queues is empty (the one whose drain just ran), but
not necessarily both: a phase item invoked earlier in the same loop may
have refilled nextTick, and pre-existing microtasks are not cleared
before the first removal. -/
theorem tick_deq_one_priority_queue_empty (fuel : Nat) (s s' : St)
    (h : (tick fuel s).st? = some s') :
    ∃ ext, s'.trace = s.trace ++ ext ∧
      ∀ p nt mt, Ev.deq p nt mt ∈ ext → nt = true ∨ mt = true :=
  tick_flag fuel s s' h

/-- C2 counterexample: timer id 1 enqueues id 3 into nextTick; the
second timer (id 2) is then removed for invocation while nextTick is
non-empty — the trace records a phase-item dequeue with the nextTick
queue not empty, refuting the claimed invariant. -/
theorem phase_item_removed_with_nonempty_nextTick :
    Ev.deq QId.timers false true ∈ traceOf (tick 10 sC2) := by decide

/-- C2 witness: concrete instance of the corrected dequeue invariant. -/
theorem tick_deq_one_priority_queue_empty_witness :
    (tick 10 sC2).st? = some sC2r ∧
    (∃ ext, sC2r.trace = sC2.trace ++ ext ∧
      ∀ p nt mt, Ev.deq p nt mt ∈ ext → nt = true ∨ mt = true) :=
  ⟨rfl, tick_deq_one_priority_queue_empty 10 sC2 sC2r rfl⟩

/-- C3 (corrected): after each phase-queue item invocation only the
items it enqueued into priority-deferred (microtasks) execute before
the next phase-queue item; items enqueued into priority-immediate
(nextTick) wait for the next nextTick drain.  The spec's concrete
instance holds: timers A (id 1) and B (id 2), where A enqueues C (id 3)
into priority-deferred, produce the single-tick order A, C, B; and in
general, once the phase loop runs from a state with the microtask queue
drained, every later phase-item removal happens with the microtask
queue empty again. -/
theorem microtasks_flushed_after_each_phase_item :
    traceOf (tick 10 sABC) = [Ev.deq .timers true true, Ev.invoke 1, Ev.invoke 3,
      Ev.deq .timers true true, Ev.invoke 2] ∧
    (∀ (i : QId) (fuel : Nat) (s s' : St), getQ s .microtasks = [] →
      (runPhaseLoop i fuel s).st? = some s' →
      ∃ ext, s'.trace = s.trace ++ ext ∧
        ∀ p nt mt, Ev.deq p nt mt ∈ ext → mt = true) :=
  ⟨by decide, fun i fuel s s' h1 h2 => runPhaseLoop_mt_flags i fuel s s' h1 h2⟩

/-- C3 counterexample: timer id 4 enqueues id 6 into priority-immediate
(nextTick); id 6 does not execute before the next phase item (id 5),
refuting the claim for the priority-immediate half. -/
theorem nextTick_not_flushed_between_phase_items :
    Ev.invoke 6 ∈ traceOf (tick 10 sC3) ∧
    invokedBefore (traceOf (tick 10 sC3)) 6 5 = false ∧
    invokedBefore (traceOf (tick 10 sC3)) 5 6 = true := by decide

/-- C3 witness: concrete instance of the corrected microtask-flush
property. -/
theorem microtasks_flushed_after_each_phase_item_witness :
    getQ wC3 QId.microtasks = [] ∧ (runPhaseLoop QId.timers 5 wC3).st? = some wC3r ∧
    (∃ ext, wC3r.trace = wC3.trace ++ ext ∧
      ∀ p nt mt, Ev.deq p nt mt ∈ ext → mt = true) :=
  ⟨rfl, rfl, microtasks_flushed_after_each_phase_item.2 QId.timers 5 wC3 wC3r rfl rfl⟩

/-- C4 (corrected): the enqueue operations perform no validation and
cannot fail: any value, including a non-invocable one, is appended
unchanged to the end of the named queue; the error surfaces only later,
when the value is removed and invoked during a drain, which then raises
(leaving the queue without the removed item and the trace without an
invoke event for it). -/
theorem enqueue_accepts_any_value :
    (∀ (id : Nat) (s : St),
      queueNextTick (Task.notCallable id) s
        = { s with nextTick := s.nextTick ++ [Task.notCallable id] } ∧
      queueMicrotask (Task.notCallable id) s
        = { s with microtasks := s.microtasks ++ [Task.notCallable id] } ∧
      queueTimer (Task.notCallable id) s
        = { s with timers := s.timers ++ [Task.notCallable id] } ∧
      queuePendingCallback (Task.notCallable id) s
        = { s with pendingCallbacks := s.pendingCallbacks ++ [Task.notCallable id] } ∧
      queueIdlePrepare (Task.notCallable id) s
        = { s with idlePrepare := s.idlePrepare ++ [Task.notCallable id] } ∧
      queuePoll (Task.notCallable id) s
        = { s with poll := s.poll ++ [Task.notCallable id] } ∧
      queueCheck (Task.notCallable id) s
        = { s with check := s.check ++ [Task.notCallable id] } ∧
      queueCloseCallback (Task.notCallable id) s
        = { s with closeCallbacks := s.closeCallbacks ++ [Task.notCallable id] }) ∧
    (∀ (id : Nat) (rest : List Task) (s : St) (fuel : Nat),
      getQ s .nextTick = Task.notCallable id :: rest →
      drain .nextTick (fuel + 1) s = R.exn (setQ s .nextTick rest)) := by
  refine ⟨fun id s => ⟨rfl, rfl, rfl, rfl, rfl, rfl, rfl, rfl⟩, ?_⟩
  intro id rest s fuel h
  simp [drain, h, runTask]

/-- C4 counterexample: enqueuing a non-invocable value neither fails
nor leaves the queue unchanged — the value is appended. -/
theorem enqueue_does_not_reject_noninvocable :
    (queueNextTick (Task.notCallable 0) initSt).nextTick = [Task.notCallable 0] ∧
    (queueNextTick (Task.notCallable 0) initSt).nextTick ≠ initSt.nextTick := by
  refine ⟨rfl, ?_⟩
  intro h
  simp [queueNextTick, pushQ, setQ, getQ, initSt] at h

/-- C4 witness: concrete instance of the corrected enqueue policy. -/
theorem enqueue_accepts_any_value_witness :
    (queueNextTick (Task.notCallable 7) initSt
      = { initSt with nextTick := initSt.nextTick ++ [Task.notCallable 7] }) ∧
    getQ w4 QId.nextTick = Task.notCallable 7 :: [] ∧
    drain QId.nextTick 4 w4 = R.exn (setQ w4 QId.nextTick []) :=
  ⟨(enqueue_accepts_any_value.1 7 initSt).1, rfl,
    enqueue_accepts_any_value.2 7 [] w4 3 rfl⟩

/-- C5 (confirmed): within one tick the six phases run exactly once,
in the fixed order timers, pendingCallbacks (pending), idlePrepare,
poll, check, closeCallbacks (closing); each phase queue is empty when
the next phase starts, the trace splits into six consecutive segments,
segment k invokes every item that was in phase-k's queue when the tick
began, and every phase-item dequeue of segment k belongs to phase k. -/
theorem tick_phase_order (fuel : Nat) (s s' : St) (h : tick fuel s = R.ok s') :
    ∃ s1 s2 s3 s4 s5,
      runPhase .timers fuel s = R.ok s1 ∧
      runPhase .pendingCallbacks fuel s1 = R.ok s2 ∧
      runPhase .idlePrepare fuel s2 = R.ok s3 ∧
      runPhase .poll fuel s3 = R.ok s4 ∧
      runPhase .check fuel s4 = R.ok s5 ∧
      runPhase .closeCallbacks fuel s5 = R.ok s' ∧
      getQ s1 .timers = [] ∧ getQ s2 .pendingCallbacks = [] ∧ getQ s3 .idlePrepare = [] ∧
      getQ s4 .poll = [] ∧ getQ s5 .check = [] ∧ getQ s' .closeCallbacks = [] ∧
      ∃ e1 e2 e3 e4 e5 e6,
        s'.trace = s.trace ++ e1 ++ e2 ++ e3 ++ e4 ++ e5 ++ e6 ∧
        (∀ t ∈ getQ s .timers, Ev.invoke t.tid ∈ e1) ∧
        (∀ p nt mt, Ev.deq p nt mt ∈ e1 → p = QId.timers) ∧
        (∀ t ∈ getQ s .pendingCallbacks, Ev.invoke t.tid ∈ e2) ∧
        (∀ p nt mt, Ev.deq p nt mt ∈ e2 → p = QId.pendingCallbacks) ∧
        (∀ t ∈ getQ s .idlePrepare, Ev.invoke t.tid ∈ e3) ∧
        (∀ p nt mt, Ev.deq p nt mt ∈ e3 → p = QId.idlePrepare) ∧
        (∀ t ∈ getQ s .poll, Ev.invoke t.tid ∈ e4) ∧
        (∀ p nt mt, Ev.deq p nt mt ∈ e4 → p = QId.poll) ∧
        (∀ t ∈ getQ s .check, Ev.invoke t.tid ∈ e5) ∧
        (∀ p nt mt, Ev.deq p nt mt ∈ e5 → p = QId.check) ∧
        (∀ t ∈ getQ s .closeCallbacks, Ev.invoke t.tid ∈ e6) ∧
        (∀ p nt mt, Ev.deq p nt mt ∈ e6 → p = QId.closeCallbacks) := by
  obtain ⟨s1, s2, s3, s4, s5, h1, h2, h3, h4, h5, h6⟩ := tick_ok_inv fuel s s' h
  obtain ⟨hq1, x1, y1, htr1, hix1, _, hc1, hd1, hp1, _⟩ :=
    runPhase_ok_spec QId.timers (by decide) (by decide) fuel s s1 h1
  obtain ⟨hq2, x2, y2, htr2, hix2, _, hc2, hd2, hp2, _⟩ :=
    runPhase_ok_spec QId.pendingCallbacks (by decide) (by decide) fuel s1 s2 h2
  obtain ⟨hq3, x3, y3, htr3, hix3, _, hc3, hd3, hp3, _⟩ :=
    runPhase_ok_spec QId.idlePrepare (by decide) (by decide) fuel s2 s3 h3
  obtain ⟨hq4, x4, y4, htr4, hix4, _, hc4, hd4, hp4, _⟩ :=
    runPhase_ok_spec QId.poll (by decide) (by decide) fuel s3 s4 h4
  obtain ⟨hq5, x5, y5, htr5, hix5, _, hc5, hd5, hp5, _⟩ :=
    runPhase_ok_spec QId.check (by decide) (by decide) fuel s4 s5 h5
  obtain ⟨hq6, x6, y6, htr6, hix6, _, hc6, hd6, hp6, _⟩ :=
    runPhase_ok_spec QId.closeCallbacks (by decide) (by decide) fuel s5 s' h6
  refine ⟨s1, s2, s3, s4, s5, h1, h2, h3, h4, h5, h6, hq1, hq2, hq3, hq4, hq5, hq6,
    x1 ++ y1, x2 ++ y2, x3 ++ y3, x4 ++ y4, x5 ++ y5, x6 ++ y6,
    ?_, ?_, ?_, ?_, ?_, ?_, ?_, ?_, ?_, ?_, ?_, ?_, ?_⟩
  · rw [htr6, htr5, htr4, htr3, htr2, htr1]
    simp [List.append_assoc]
  · intro t ht
    exact List.mem_append_right x1 (hc1 t ht)
  · intro p nt mt hm
    rcases List.mem_append.mp hm with hx | hx
    · obtain ⟨n, hn⟩ := hix1 _ hx; simp at hn
    · exact hd1 p nt mt hx
  · intro t ht
    have h0 : t ∈ getQ s1 QId.pendingCallbacks :=
      (hp1 QId.pendingCallbacks (by decide) (by decide) (by decide)).subset ht
    exact List.mem_append_right x2 (hc2 t h0)
  · intro p nt mt hm
    rcases List.mem_append.mp hm with hx | hx
    · obtain ⟨n, hn⟩ := hix2 _ hx; simp at hn
    · exact hd2 p nt mt hx
  · intro t ht
    have h0 : t ∈ getQ s2 QId.idlePrepare :=
      (((hp1 QId.idlePrepare (by decide) (by decide) (by decide)).trans
        (hp2 QId.idlePrepare (by decide) (by decide) (by decide)))).subset ht
    exact List.mem_append_right x3 (hc3 t h0)
  · intro p nt mt hm
    rcases List.mem_append.mp hm with hx | hx
    · obtain ⟨n, hn⟩ := hix3 _ hx; simp at hn
    · exact hd3 p nt mt hx
  · intro t ht
    have h0 : t ∈ getQ s3 QId.poll :=
      ((hp1 QId.poll (by decide) (by decide) (by decide)).trans
        ((hp2 QId.poll (by decide) (by decide) (by decide)).trans
          (hp3 QId.poll (by decide) (by decide) (by decide)))).subset ht
    exact List.mem_append_right x4 (hc4 t h0)
  · intro p nt mt hm
    rcases List.mem_append.mp hm with hx | hx
    · obtain ⟨n, hn⟩ := hix4 _ hx; simp at hn
    · exact hd4 p nt mt hx
  · intro t ht
    have h0 : t ∈ getQ s4 QId.check :=
      ((hp1 QId.check (by decide) (by decide) (by decide)).trans
        ((hp2 QId.check (by decide) (by decide) (by decide)).trans
          ((hp3 QId.check (by decide) (by decide) (by decide)).trans
            (hp4 QId.check (by decide) (by decide) (by decide))))).subset ht
    exact List.mem_append_right x5 (hc5 t h0)
  · intro p nt mt hm
    rcases List.mem_append.mp hm with hx | hx
    · obtain ⟨n, hn⟩ := hix5 _ hx; simp at hn
    · exact hd5 p nt mt hx
  · intro t ht
    have h0 : t ∈ getQ s5 QId.closeCallbacks :=
      ((hp1 QId.closeCallbacks (by decide) (by decide) (by decide)).trans
        ((hp2 QId.closeCallbacks (by decide) (by decide) (by decide)).trans
          ((hp3 QId.closeCallbacks (by decide) (by decide) (by decide)).trans
            ((hp4 QId.closeCallbacks (by decide) (by decide) (by decide)).trans
              (hp5 QId.closeCallbacks (by decide) (by decide) (by decide)))))).subset ht
    exact List.mem_append_right x6 (hc6 t h0)
  · intro p nt mt hm
    rcases List.mem_append.mp hm with hx | hx
    · obtain ⟨n, hn⟩ := hix6 _ hx; simp at hn
    · exact hd6 p nt mt hx

/-- C5 witness: concrete instance of the phase-order property. -/
theorem tick_phase_order_witness :
    tick 10 wC5 = R.ok wC5r ∧
    (∃ s1 s2 s3 s4 s5,
      runPhase .timers 10 wC5 = R.ok s1 ∧
      runPhase .pendingCallbacks 10 s1 = R.ok s2 ∧
      runPhase .idlePrepare 10 s2 = R.ok s3 ∧
      runPhase .poll 10 s3 = R.ok s4 ∧
      runPhase .check 10 s4 = R.ok s5 ∧
      runPhase .closeCallbacks 10 s5 = R.ok wC5r ∧
      getQ s1 .timers = [] ∧ getQ s2 .pendingCallbacks = [] ∧ getQ s3 .idlePrepare = [] ∧
      getQ s4 .poll = [] ∧ getQ s5 .check = [] ∧ getQ wC5r .closeCallbacks = [] ∧
      ∃ e1 e2 e3 e4 e5 e6,
        wC5r.trace = wC5.trace ++ e1 ++ e2 ++ e3 ++ e4 ++ e5 ++ e6 ∧
        (∀ t ∈ getQ wC5 .timers, Ev.invoke t.tid ∈ e1) ∧
        (∀ p nt mt, Ev.deq p nt mt ∈ e1 → p = QId.timers) ∧
        (∀ t ∈ getQ wC5 .pendingCallbacks, Ev.invoke t.tid ∈ e2) ∧
        (∀ p nt mt, Ev.deq p nt mt ∈ e2 → p = QId.pendingCallbacks) ∧
        (∀ t ∈ getQ wC5 .idlePrepare, Ev.invoke t.tid ∈ e3) ∧
        (∀ p nt mt, Ev.deq p nt mt ∈ e3 → p = QId.idlePrepare) ∧
        (∀ t ∈ getQ wC5 .poll, Ev.invoke t.tid ∈ e4) ∧
        (∀ p nt mt, Ev.deq p nt mt ∈ e4 → p = QId.poll) ∧
        (∀ t ∈ getQ wC5 .check, Ev.invoke t.tid ∈ e5) ∧
        (∀ p nt mt, Ev.deq p nt mt ∈ e5 → p = QId.check) ∧
        (∀ t ∈ getQ wC5 .closeCallbacks, Ev.invoke t.tid ∈ e6) ∧
        (∀ p nt mt, Ev.deq p nt mt ∈ e6 → p = QId.closeCallbacks)) :=
  ⟨rfl, tick_phase_order 10 wC5 wC5r rfl⟩

/-- C6 (confirmed): an item enqueued into nextTick from within a
nextTick callback, or into microtasks from within a microtask callback,
is invoked before that same drain returns; an item enqueued into
nextTick from within a microtask callback is not invoked during the
microtask drain — it is still sitting in the nextTick queue when that
drain returns — and is invoked by the next completed drain of
nextTick. -/
theorem priority_reentrant_enqueue :
    (∀ (id : Nat) (t : Task) (rest : List Task) (fuel : Nat) (s s' : St),
      getQ s .nextTick = Task.mk id [(QId.nextTick, t)] false :: rest →
      drain .nextTick fuel s = R.ok s' →
      ∃ ext, s'.trace = s.trace ++ ext ∧ Ev.invoke id ∈ ext ∧ Ev.invoke t.tid ∈ ext) ∧
    (∀ (id : Nat) (t : Task) (rest : List Task) (fuel : Nat) (s s' : St),
      getQ s .microtasks = Task.mk id [(QId.microtasks, t)] false :: rest →
      drain .microtasks fuel s = R.ok s' →
      ∃ ext, s'.trace = s.trace ++ ext ∧ Ev.invoke id ∈ ext ∧ Ev.invoke t.tid ∈ ext) ∧
    (∀ (id : Nat) (t : Task) (rest : List Task) (fuel : Nat) (s s' : St),
      getQ s .microtasks = Task.mk id [(QId.nextTick, t)] false :: rest →
      drain .microtasks fuel s = R.ok s' →
      t ∈ getQ s' .nextTick ∧
      ∀ (fuel2 : Nat) (s'' : St), drain .nextTick fuel2 s' = R.ok s'' →
        ∃ ext, s''.trace = s'.trace ++ ext ∧ Ev.invoke t.tid ∈ ext) :=
  ⟨fun id t rest fuel s s' hq h => drain_reentrant_same QId.nextTick id t rest fuel s s' hq h,
   fun id t rest fuel s s' hq h => drain_reentrant_same QId.microtasks id t rest fuel s s' hq h,
   fun id t rest fuel s s' hq h => microtask_enqueue_nextTick_deferred id t rest fuel s s' hq h⟩

/-- C6 witness: concrete instances of all three re-entrancy cases. -/
theorem priority_reentrant_enqueue_witness :
    getQ w6a QId.nextTick = Task.mk 1 [(QId.nextTick, Task.mk 2 [] false)] false :: [] ∧
    drain QId.nextTick 5 w6a = R.ok w6ar ∧
    (∃ ext, w6ar.trace = w6a.trace ++ ext ∧ Ev.invoke 1 ∈ ext ∧ Ev.invoke 2 ∈ ext) ∧
    drain QId.microtasks 5 w6b = R.ok w6br ∧
    (∃ ext, w6br.trace = w6b.trace ++ ext ∧ Ev.invoke 3 ∈ ext ∧ Ev.invoke 4 ∈ ext) ∧
    drain QId.microtasks 5 w6c = R.ok w6cr ∧
    Task.mk 6 [] false ∈ getQ w6cr QId.nextTick ∧
    (∀ (fuel2 : Nat) (s'' : St), drain QId.nextTick fuel2 w6cr = R.ok s'' →
      ∃ ext, s''.trace = w6cr.trace ++ ext ∧ Ev.invoke 6 ∈ ext) :=
  ⟨rfl, rfl,
   priority_reentrant_enqueue.1 1 (Task.mk 2 [] false) [] 5 w6a w6ar rfl rfl,
   rfl,
   priority_reentrant_enqueue.2.1 3 (Task.mk 4 [] false) [] 5 w6b w6br rfl rfl,
   rfl,
   (priority_reentrant_enqueue.2.2 5 (Task.mk 6 [] false) [] 5 w6c w6cr rfl rfl).1,
   (priority_reentrant_enqueue.2.2 5 (Task.mk 6 [] false) [] 5 w6c w6cr rfl rfl).2⟩

/-- C7 (confirmed): the scheduler catches nothing.  Wherever a work
item throws inside tick, the exception propagates synchronously out of
tick unchanged: conjuncts 1-6 cover an exception surfacing from each of
the six phases in turn, and conjuncts 10-12 propagate an exception out
of the nextTick drain, the phase loop, and the per-item microtask drain
that make up a phase.  Conjunct 7 inverts: a raising tick is exactly
one whose earlier phases all completed normally and whose failing phase
raised, so no later phase of that tick runs.  Conjuncts 8-9: at the
throwing invocation the drain stops at once - the trace gains the
throwing item's invoke event and nothing else (no remaining item of the
currently draining queue is invoked), and the remaining items stay in
their queue, in order, in the carried mid-drain state.  Conjuncts 13-16
exhibit this concretely: sC7's first timer throws, the tick aborts
having invoked only id 1, with timer id 2 and check id 3 still
queued. -/
theorem throw_aborts_tick :
    (∀ (fuel : Nat) (s e : St),
      runPhase .timers fuel s = R.exn e → tick fuel s = R.exn e) ∧
    (∀ (fuel : Nat) (s s1 e : St),
      runPhase .timers fuel s = R.ok s1 →
      runPhase .pendingCallbacks fuel s1 = R.exn e → tick fuel s = R.exn e) ∧
    (∀ (fuel : Nat) (s s1 s2 e : St),
      runPhase .timers fuel s = R.ok s1 →
      runPhase .pendingCallbacks fuel s1 = R.ok s2 →
      runPhase .idlePrepare fuel s2 = R.exn e → tick fuel s = R.exn e) ∧
    (∀ (fuel : Nat) (s s1 s2 s3 e : St),
      runPhase .timers fuel s = R.ok s1 →
      runPhase .pendingCallbacks fuel s1 = R.ok s2 →
      runPhase .idlePrepare fuel s2 = R.ok s3 →
      runPhase .poll fuel s3 = R.exn e → tick fuel s = R.exn e) ∧
    (∀ (fuel : Nat) (s s1 s2 s3 s4 e : St),
      runPhase .timers fuel s = R.ok s1 →
      runPhase .pendingCallbacks fuel s1 = R.ok s2 →
      runPhase .idlePrepare fuel s2 = R.ok s3 →
      runPhase .poll fuel s3 = R.ok s4 →
      runPhase .check fuel s4 = R.exn e → tick fuel s = R.exn e) ∧
    (∀ (fuel : Nat) (s s1 s2 s3 s4 s5 e : St),
      runPhase .timers fuel s = R.ok s1 →
      runPhase .pendingCallbacks fuel s1 = R.ok s2 →
      runPhase .idlePrepare fuel s2 = R.ok s3 →
      runPhase .poll fuel s3 = R.ok s4 →
      runPhase .check fuel s4 = R.ok s5 →
      runPhase .closeCallbacks fuel s5 = R.exn e → tick fuel s = R.exn e) ∧
    (∀ (fuel : Nat) (s e : St), tick fuel s = R.exn e →
      runPhase .timers fuel s = R.exn e ∨
      ∃ s1, runPhase .timers fuel s = R.ok s1 ∧
        (runPhase .pendingCallbacks fuel s1 = R.exn e ∨
        ∃ s2, runPhase .pendingCallbacks fuel s1 = R.ok s2 ∧
          (runPhase .idlePrepare fuel s2 = R.exn e ∨
          ∃ s3, runPhase .idlePrepare fuel s2 = R.ok s3 ∧
            (runPhase .poll fuel s3 = R.exn e ∨
            ∃ s4, runPhase .poll fuel s3 = R.ok s4 ∧
              (runPhase .check fuel s4 = R.exn e ∨
              ∃ s5, runPhase .check fuel s4 = R.ok s5 ∧
                runPhase .closeCallbacks fuel s5 = R.exn e))))) ∧
    (∀ (i : QId) (id : Nat) (effs : List (QId × Task)) (rest : List Task)
        (fuel : Nat) (s : St),
      getQ s i = Task.mk id effs true :: rest →
      ∃ e, runPhaseLoop i (fuel + 1) s = R.exn e ∧ rest <+: getQ e i ∧
        e.trace = s.trace ++ [Ev.deq i (getQ s .nextTick).isEmpty
          (getQ s .microtasks).isEmpty, Ev.invoke id]) ∧
    (∀ (i : QId) (id : Nat) (effs : List (QId × Task)) (rest : List Task)
        (fuel : Nat) (s : St),
      getQ s i = Task.mk id effs true :: rest →
      ∃ e, drain i (fuel + 1) s = R.exn e ∧ rest <+: getQ e i ∧
        e.trace = s.trace ++ [Ev.invoke id]) ∧
    (∀ (i : QId) (fuel : Nat) (s e : St),
      runNextTick fuel s = R.exn e → runPhase i fuel s = R.exn e) ∧
    (∀ (i : QId) (fuel : Nat) (s s1 e : St),
      runNextTick fuel s = R.ok s1 → runPhaseLoop i fuel s1 = R.exn e →
      runPhase i fuel s = R.exn e) ∧
    (∀ (i : QId) (fuel : Nat) (s e : St) (t : Task) (rest : List Task),
      getQ s i = t :: rest →
      (runTask t (setQ (addEv (Ev.deq i (getQ s .nextTick).isEmpty
        (getQ s .microtasks).isEmpty) s) i rest)).2 = false →
      runMicrotasks fuel (runTask t (setQ (addEv (Ev.deq i (getQ s .nextTick).isEmpty
        (getQ s .microtasks).isEmpty) s) i rest)).1 = R.exn e →
      runPhaseLoop i (fuel + 1) s = R.exn e) ∧
    tick 10 sC7 = R.exn sC7e ∧
    sC7e.trace = [Ev.deq QId.timers true true, Ev.invoke 1] ∧
    getQ sC7e QId.timers = [Task.mk 2 [] false] ∧
    getQ sC7e QId.check = [Task.mk 3 [] false] := by
  refine ⟨?_, ?_, ?_, ?_, ?_, ?_, ?_, ?_, ?_, ?_, ?_, ?_, rfl, rfl, rfl, rfl⟩
  · intro fuel s e h
    show bindOk (runPhase .timers fuel s) _ = R.exn e
    rw [h]
    rfl
  · intro fuel s s1 e h1 h
    show bindOk (runPhase .timers fuel s) _ = R.exn e
    rw [h1]
    show bindOk (runPhase .pendingCallbacks fuel s1) _ = R.exn e
    rw [h]
    rfl
  · intro fuel s s1 s2 e h1 h2 h
    show bindOk (runPhase .timers fuel s) _ = R.exn e
    rw [h1]
    show bindOk (runPhase .pendingCallbacks fuel s1) _ = R.exn e
    rw [h2]
    show bindOk (runPhase .idlePrepare fuel s2) _ = R.exn e
    rw [h]
    rfl
  · intro fuel s s1 s2 s3 e h1 h2 h3 h
    show bindOk (runPhase .timers fuel s) _ = R.exn e
    rw [h1]
    show bindOk (runPhase .pendingCallbacks fuel s1) _ = R.exn e
    rw [h2]
    show bindOk (runPhase .idlePrepare fuel s2) _ = R.exn e
    rw [h3]
    show bindOk (runPhase .poll fuel s3) _ = R.exn e
    rw [h]
    rfl
  · intro fuel s s1 s2 s3 s4 e h1 h2 h3 h4 h
    show bindOk (runPhase .timers fuel s) _ = R.exn e
    rw [h1]
    show bindOk (runPhase .pendingCallbacks fuel s1) _ = R.exn e
    rw [h2]
    show bindOk (runPhase .idlePrepare fuel s2) _ = R.exn e
    rw [h3]
    show bindOk (runPhase .poll fuel s3) _ = R.exn e
    rw [h4]
    show bindOk (runPhase .check fuel s4) _ = R.exn e
    rw [h]
    rfl
  · intro fuel s s1 s2 s3 s4 s5 e h1 h2 h3 h4 h5 h
    show bindOk (runPhase .timers fuel s) _ = R.exn e
    rw [h1]
    show bindOk (runPhase .pendingCallbacks fuel s1) _ = R.exn e
    rw [h2]
    show bindOk (runPhase .idlePrepare fuel s2) _ = R.exn e
    rw [h3]
    show bindOk (runPhase .poll fuel s3) _ = R.exn e
    rw [h4]
    show bindOk (runPhase .check fuel s4) _ = R.exn e
    rw [h5]
    show runPhase .closeCallbacks fuel s5 = R.exn e
    exact h
  · intro fuel s e h
    rw [tick] at h
    rcases bindOk_exn_inv _ _ _ h with h1 | ⟨s1, h1, h⟩
    · exact Or.inl h1
    refine Or.inr ⟨s1, h1, ?_⟩
    rcases bindOk_exn_inv _ _ _ h with h2 | ⟨s2, h2, h⟩
    · exact Or.inl h2
    refine Or.inr ⟨s2, h2, ?_⟩
    rcases bindOk_exn_inv _ _ _ h with h3 | ⟨s3, h3, h⟩
    · exact Or.inl h3
    refine Or.inr ⟨s3, h3, ?_⟩
    rcases bindOk_exn_inv _ _ _ h with h4 | ⟨s4, h4, h⟩
    · exact Or.inl h4
    refine Or.inr ⟨s4, h4, ?_⟩
    rcases bindOk_exn_inv _ _ _ h with h5 | ⟨s5, h5, h⟩
    · exact Or.inl h5
    exact Or.inr ⟨s5, h5, h⟩
  · intro i id effs rest fuel s hq
    obtain ⟨htr, hqpre, _, _⟩ :=
      stepState_facts (Ev.deq i (getQ s .nextTick).isEmpty (getQ s .microtasks).isEmpty)
        id effs s i rest
    refine ⟨_, ?_, hqpre, htr⟩
    simp [runPhaseLoop, hq, runTask]
  · intro i id effs rest fuel s hq
    refine ⟨applyEffs effs (addEv (Ev.invoke id) (setQ s i rest)), ?_, ?_, ?_⟩
    · simp [drain, hq, runTask]
    · have h1 : getQ (addEv (Ev.invoke id) (setQ s i rest)) i = rest := by
        rw [getQ_addEv, getQ_setQ_self]
      calc rest = getQ (addEv (Ev.invoke id) (setQ s i rest)) i := h1.symm
        _ <+: _ := applyEffs_pref effs _ i
    · rw [applyEffs_trace, trace_addEv, trace_setQ]
  · intro i fuel s e h
    rw [runPhase, h]
  · intro i fuel s s1 e h1 h2
    rw [runPhase, h1]
    exact h2
  · intro i fuel s e t rest hq h2 h3
    simp only [runPhaseLoop, hq]
    rw [h2]
    simp only [Bool.false_eq_true, if_false, ite_false]
    rw [h3]

/-- C7 witness: concrete instances - a throw surfacing from the check
(fifth) phase propagates out of the tick with the remaining check item
and the close-callback item still queued, and the mid-drain facts hold
at a throwing phase item and at a throwing nextTick item. -/
theorem throw_aborts_tick_witness :
    runPhase QId.timers 10 wC7 = R.ok wC7 ∧
    runPhase QId.pendingCallbacks 10 wC7 = R.ok wC7 ∧
    runPhase QId.idlePrepare 10 wC7 = R.ok wC7 ∧
    runPhase QId.poll 10 wC7 = R.ok wC7 ∧
    runPhase QId.check 10 wC7 = R.exn wC7e ∧
    tick 10 wC7 = R.exn wC7e ∧
    getQ wC7 QId.check = Task.mk 1 [] true :: [Task.mk 2 [] false] ∧
    (∃ e, runPhaseLoop QId.check (5 + 1) wC7 = R.exn e ∧
      [Task.mk 2 [] false] <+: getQ e QId.check ∧
      e.trace = wC7.trace ++ [Ev.deq QId.check (getQ wC7 .nextTick).isEmpty
        (getQ wC7 .microtasks).isEmpty, Ev.invoke 1]) ∧
    getQ w7d QId.nextTick = Task.mk 8 [] true :: [Task.mk 9 [] false] ∧
    (∃ e, drain QId.nextTick (3 + 1) w7d = R.exn e ∧
      [Task.mk 9 [] false] <+: getQ e QId.nextTick ∧
      e.trace = w7d.trace ++ [Ev.invoke 8]) :=
  ⟨rfl, rfl, rfl, rfl, rfl,
   throw_aborts_tick.2.2.2.2.1 10 wC7 wC7 wC7 wC7 wC7 wC7e rfl rfl rfl rfl rfl,
   rfl,
   throw_aborts_tick.2.2.2.2.2.2.2.1 QId.check 1 [] [Task.mk 2 [] false] 5 wC7 rfl,
   rfl,
   throw_aborts_tick.2.2.2.2.2.2.2.2.1 QId.nextTick 8 [] [Task.mk 9 [] false] 3 w7d rfl⟩

/-- C8 (confirmed): a tick on the freshly constructed scheduler (all
eight queues empty) completes normally, performs no invocation (the
trace stays empty) and returns the state unchanged. -/
theorem tick_empty_is_identity (fuel : Nat) :
    tick fuel initSt = R.ok initSt ∧ traceOf (tick fuel initSt) = [] := by
  have hq : ∀ i, getQ initSt i = [] := by intro i; cases i <;> rfl
  have hrp : ∀ i, runPhase i fuel initSt = R.ok initSt := by
    intro i
    rw [runPhase, runNextTick, drain_of_empty QId.nextTick fuel initSt (hq QId.nextTick)]
    exact runPhaseLoop_of_empty i fuel initSt (hq i)
  have h1 : tick fuel initSt = R.ok initSt := by
    rw [tick, hrp QId.timers]
    show bindOk (runPhase QId.pendingCallbacks fuel initSt) _ = R.ok initSt
    rw [hrp QId.pendingCallbacks]
    show bindOk (runPhase QId.idlePrepare fuel initSt) _ = R.ok initSt
    rw [hrp QId.idlePrepare]
    show bindOk (runPhase QId.poll fuel initSt) _ = R.ok initSt
    rw [hrp QId.poll]
    show bindOk (runPhase QId.check fuel initSt) _ = R.ok initSt
    rw [hrp QId.check]
    show runPhase QId.closeCallbacks fuel initSt = R.ok initSt
    exact hrp QId.closeCallbacks
  exact ⟨h1, by rw [h1]; rfl⟩

/-- C9 (confirmed): enqueues performed while a work item runs append to
the end of the target queue (the items already present stay, in order,
as a prefix), the push primitive used by every enqueue path appends
exactly one item at the end, and a later completed drain of the queue
invokes every item the queue held when the drain started — so items
appended during an invocation are seen by later drains. -/
theorem enqueue_appends_and_later_drains_see_it :
    (∀ (t : Task) (s : St) (j : QId), ∃ app, getQ (runTask t s).1 j = getQ s j ++ app) ∧
    (∀ (i : QId) (t : Task) (s : St), getQ (pushQ i t s) i = getQ s i ++ [t]) ∧
    (∀ (i : QId) (fuel : Nat) (s s' : St), drain i fuel s = R.ok s' →
      ∃ ext, s'.trace = s.trace ++ ext ∧ ∀ t ∈ getQ s i, Ev.invoke t.tid ∈ ext) := by
  refine ⟨?_, ?_, ?_⟩
  · intro t s j
    obtain ⟨app, happ⟩ := runTask_pref t s j
    exact ⟨app, happ.symm⟩
  · intro i t s
    exact getQ_pushQ_self i t s
  · intro i fuel s s' h
    obtain ⟨_, ext, htr, _, hcomp, _, _⟩ := drain_ok_spec i fuel s s' h
    exact ⟨ext, htr, hcomp⟩

/-- C9 witness: concrete instance of the visibility part. -/
theorem enqueue_appends_and_later_drains_see_it_witness :
    drain QId.nextTick 3 w9 = R.ok w9r ∧
    (∃ ext, w9r.trace = w9.trace ++ ext ∧
      ∀ t ∈ getQ w9 QId.nextTick, Ev.invoke t.tid ∈ ext) :=
  ⟨rfl, enqueue_appends_and_later_drains_see_it.2.2 QId.nextTick 3 w9 w9r rfl⟩

/-- C10 (confirmed): each of the eight enqueue operations appends
exactly the given item at the end of its own queue and leaves the other
seven queues, the running flag and the trace unchanged (the result is
the same record with only that one queue field extended). -/
theorem enqueue_frame (t : Task) (s : St) :
    queueNextTick t s = { s with nextTick := s.nextTick ++ [t] } ∧
    queueMicrotask t s = { s with microtasks := s.microtasks ++ [t] } ∧
    queueTimer t s = { s with timers := s.timers ++ [t] } ∧
    queuePendingCallback t s = { s with pendingCallbacks := s.pendingCallbacks ++ [t] } ∧
    queueIdlePrepare t s = { s with idlePrepare := s.idlePrepare ++ [t] } ∧
    queuePoll t s = { s with poll := s.poll ++ [t] } ∧
    queueCheck t s = { s with check := s.check ++ [t] } ∧
    queueCloseCallback t s = { s with closeCallbacks := s.closeCallbacks ++ [t] } :=
  ⟨rfl, rfl, rfl, rfl, rfl, rfl, rfl, rfl⟩

end ELoop
